import Mathlib

/-!
Verification of the two-source VCF merge engine (`vcfmerge.py`).

The development shallowly embeds the program's core: header extraction
(`get_header`), header combination (`combine_headers`), the per-source record
stream (`write_vcf_body`), the uninformative-genotype test
(`all_unknown_or_ref`) and the heap-driven merge loop of `main`.  Machine-level
concerns that the spec declares external (file opening, gzip, the exact line
iterator) are modelled as lists of decoded lines / pre-split column lists.
Python exceptions (`IndexError`, `StopIteration` escaping a non-generator,
`ValueError`, a failed regex match) are modelled with `Except Unit` or an
explicit crash flag.
-/

namespace Vcfmerge

/-- A yielded record of `write_vcf_body`: the tuple
`(toks[0], int(toks[1]), file_idx, toks)` pushed onto the priority queue. -/
structure Rec where
  chrom : String
  pos : Int
  src : Nat
  toks : List String
deriving DecidableEq, Repr

/-- Python `<` on strings, character list by code point (lexicographic). -/
def charListLt : List Char → List Char → Bool
  | _, [] => false
  | [], _ :: _ => true
  | a :: as_, b :: bs =>
    if a.toNat < b.toNat then true
    else if a.toNat = b.toNat then charListLt as_ bs
    else false

/-- Python `<` on strings. -/
def strLt (a b : String) : Bool := charListLt a.data b.data

/-- Python lexicographic comparison of two lists of strings (the `toks`
component of the heap tuples). -/
def toksLt : List String → List String → Bool
  | _, [] => false
  | [], _ :: _ => true
  | a :: as_, b :: bs =>
    if strLt a b then true else if a = b then toksLt as_ bs else false

/-- Python `<` on the 4-tuples `(chrom, pos, file_idx, toks)` that `heapq`
orders by: lexicographic over string, int, int, list-of-string. -/
def keyLt (a b : Rec) : Bool :=
  if strLt a.chrom b.chrom then true
  else if strLt b.chrom a.chrom then false
  else if a.pos < b.pos then true
  else if b.pos < a.pos then false
  else if a.src < b.src then true
  else if b.src < a.src then false
  else toksLt a.toks b.toks

/-- Non-strict order on the first three components `(chrom, pos, src)`:
coordinate order with ties broken by source rank.  This is the order the
spec's output-ordering property speaks about. -/
def recKeyLe (a b : Rec) : Bool :=
  if strLt a.chrom b.chrom then true
  else if strLt b.chrom a.chrom then false
  else if a.pos < b.pos then true
  else if b.pos < a.pos then false
  else decide (a.src ≤ b.src)

/-- Non-strict order on `(chrom, pos)` only: the order in which each input
stream is assumed to be individually sorted. -/
def recOrd (a b : Rec) : Bool :=
  if strLt a.chrom b.chrom then true
  else if strLt b.chrom a.chrom then false
  else decide (a.pos ≤ b.pos)

/-- Decidable non-decreasing check for a record stream, adjacent pairs
compared by `(chrom, pos)`. -/
def sortedRecs : List Rec → Bool
  | [] => true
  | [_] => true
  | a :: b :: t => recOrd a b && sortedRecs (b :: t)

/-- Pop the minimum element (under the heap order `keyLt`) from a list,
returning it together with the remaining elements.  This models
`heapq.heappop` on a heap containing the same multiset of tuples; `none`
models popping an empty heap (`IndexError`). -/
def popMin : List Rec → Option (Rec × List Rec)
  | [] => none
  | x :: xs =>
    match popMin xs with
    | none => some (x, [])
    | some (m, ys) => if keyLt m x then some (m, x :: ys) else some (x, xs)

/-- `heapq.heappush`: adds one element to the heap's multiset. -/
def pushOpt (pq : List Rec) : Option Rec → List Rec
  | none => pq
  | some r => r :: pq

/-- `next(gen)` guarded by `except StopIteration: pass`: take the stream's
next record if any. -/
def pull1 : List Rec → Option Rec × List Rec
  | [] => (none, [])
  | a :: t => (some a, t)

/-- `next(gens[i])`: pull from stream 0 or stream 1 according to the source
index stored in the popped tuple. -/
def pullSrc (g1 g2 : List Rec) (src : Nat) : Option Rec × List Rec × List Rec :=
  if src = 0 then
    let p := pull1 g1
    (p.1, p.2, g2)
  else
    let p := pull1 g2
    (p.1, g1, p.2)

theorem pullSrc_zero (g1 g2 : List Rec) :
    pullSrc g1 g2 0 = ((pull1 g1).1, (pull1 g1).2, g2) := rfl

theorem pullSrc_one (g1 g2 : List Rec) :
    pullSrc g1 g2 1 = ((pull1 g2).1, g1, (pull1 g2).2) := rfl

/-- The test `last_chrom != chrom and last_chrom is not None` guarding the
chromosome-boundary flush. -/
def boundaryAt (lastC : Option String) (r : Rec) : Bool :=
  match lastC with
  | none => false
  | some c => decide (c ≠ r.chrom)

/-- The `while pq:` loop of `main` (source lines 131-156).  Output records are
paired with a flag that is `true` exactly for the record popped to resume the
normal loop right after a chromosome-boundary flush (source line 146); the
second component of the result is `true` iff the loop aborted with an
uncaught exception (the `heapq.heappop` on an empty queue at source line 137).
`fuel` bounds the number of loop iterations; every caller supplies more fuel
than records, so the fuel-exhaustion branch is unreachable (see
`mergeLoop_main`). -/
def mergeLoop (fuel : Nat) (g1 g2 pq : List Rec) (lastC : Option String) :
    List (Rec × Bool) × Bool :=
  match fuel with
  | 0 => ([], true)
  | fuel + 1 =>
    match popMin pq with
    | none => ([], false)
    | some (r, pq1) =>
      if boundaryAt lastC r then
        match popMin pq1 with
        | none => ([(r, false)], true)
        | some (r2, pq2) =>
          let u1 := pull1 g1
          let u2 := pull1 g2
          let pq3 := pushOpt (pushOpt pq2 u1.1) u2.1
          match popMin pq3 with
          | none => ([(r, false), (r2, false)], false)
          | some (r3, pq4) =>
            let u := pullSrc u1.2 u2.2 r3.src
            let res := mergeLoop fuel u.2.1 u.2.2 (pushOpt pq4 u.1) (some r3.chrom)
            ((r, false) :: (r2, false) :: (r3, true) :: res.1, res.2)
      else
        let u := pullSrc g1 g2 r.src
        let res := mergeLoop fuel u.2.1 u.2.2 (pushOpt pq1 u.1) (some r.chrom)
        ((r, false) :: res.1, res.2)

/-- The merge scheduler of `main` (source lines 120-156), taking the two
record streams as lists.  Seeding pops the first record of each stream with a
bare `next` (line 128); an empty stream there raises `StopIteration`, modelled
by the crash flag. -/
def mergeMain (s1 s2 : List Rec) : List (Rec × Bool) × Bool :=
  match s1, s2 with
  | r1 :: t1, r2 :: t2 =>
    mergeLoop (s1.length + s2.length + 1) t1 t2 [r1, r2] none
  | _, _ => ([], true)

/-- The emitted sequence is non-decreasing in `(chrom, pos, src)` at every
adjacent pair whose second record is not a boundary-flush resume record
(flag `true`); `last` is the record emitted just before the sequence, if
any. -/
def flushOrdered (last : Option Rec) : List (Rec × Bool) → Bool
  | [] => true
  | (r, fl) :: rest =>
    (fl || match last with
           | none => true
           | some l => recKeyLe l r) && flushOrdered (some r) rest

/-- The `header` dictionary built by `get_header` and `combine_headers`.  The
four category maps are `OrderedDict`s, modelled as association lists in
insertion order; `idxs` is the `(source column index, sample name)` list that
`combine_headers` stores back into each source header. -/
structure Header where
  infos : List (String × String)
  formats : List (String × String)
  contigs : List (String × String)
  filters : List (String × String)
  other : List String
  samples : List String
  idxs : List (Nat × String)
deriving DecidableEq, Repr

/-- The fresh `header = dict(...)` value with empty maps and lists. -/
def emptyHeader : Header := ⟨[], [], [], [], [], [], []⟩

/-- `OrderedDict` lookup `m[k]` (as an option). -/
def odGet (m : List (String × String)) (k : String) : Option String :=
  match m with
  | [] => none
  | (k', v') :: rest => if k' = k then some v' else odGet rest k

/-- `OrderedDict` assignment `m[k] = v`: updates in place when the key is
present (keeping its position), appends otherwise. -/
def odSet (m : List (String × String)) (k v : String) : List (String × String) :=
  match m with
  | [] => [(k, v)]
  | (k', v') :: rest => if k' = k then (k, v) :: rest else (k', v') :: odSet rest k v

/-- Python substring containment `needle in hay` on character lists. -/
def subIn (needle : List Char) : List Char → Bool
  | [] => needle.isEmpty
  | c :: t => needle.isPrefixOf (c :: t) || subIn needle t

/-- The test `"=Float" in line` used by the definition-conflict tie-break in
`combine_headers`. -/
def floatTyped (line : String) : Bool := subIn "=Float".data line.data

/-- The per-category merge loop of `combine_headers` (source lines 59-71):
start from a copy of header 1's map, then fold header 2's entries over it.
Identical entries are no-ops; differing entries keep header 1's line unless
header 2's line contains `=Float` and header 1's does not; absent ids are
appended. -/
def combineMap (m1 m2 : List (String × String)) : List (String × String) :=
  m2.foldl
    (fun acc kv =>
      match odGet acc kv.1 with
      | some v =>
        if v ≠ kv.2 ∧ floatTyped kv.2 ∧ ¬ floatTyped v = true then odSet acc kv.1 kv.2
        else acc
      | none => odSet acc kv.1 kv.2)
    m1

/-- `list.index(s)` for an element known to be present (first index of `s`;
returns the list length when absent, a case `combine_headers` never hits
because the looked-up samples come from the intersection). -/
def listIndex (s : String) : List String → Nat
  | [] => 0
  | a :: t => if a = s then 0 else listIndex s t + 1

/-- `combine_headers(h1, h2)` (source lines 49-76).  Returns the merged header
together with the two argument headers as mutated by the function (each
receives its `idxs` projection; nothing else of the arguments changes). -/
def combineHeaders (h1 h2 : Header) : Header × Header × Header :=
  let h1idxs := (h1.samples.enum).filter (fun p => h2.samples.contains p.2)
  let h2idxs := h1idxs.map (fun p => (listIndex p.2 h2.samples, p.2))
  let merged : Header :=
    { infos := combineMap h1.infos h2.infos
      formats := combineMap h1.formats h2.formats
      contigs := combineMap h1.contigs h2.contigs
      filters := combineMap h1.filters h2.filters
      other := h2.other.foldl (fun acc o => if o ∈ acc then acc else acc ++ [o]) h1.other
      samples := h1idxs.map Prod.snd
      idxs := [] }
  (merged, { h1 with idxs := h1idxs }, { h2 with idxs := h2idxs })

/-- `all_unknown_or_ref(samples)` (source lines 88-90): every sample column's
text before the first `:` is a no-call or hom-ref genotype token. -/
def allUnknownOrRef (samples : List String) : Bool :=
  samples.all fun s =>
    let lead : String := ⟨s.data.takeWhile (fun c => c ≠ ':')⟩
    lead = "." ∨ lead = "./." ∨ lead = "0/0" ∨ lead = ".|." ∨ lead = "0|0"

/-- The projection `[samples[i] for i in idxs]` (source line 101); a selected
index beyond the row's sample columns raises `IndexError`. -/
def projectSamples (samples : List String) : List Nat → Except Unit (List String)
  | [] => .ok []
  | i :: is_ =>
    match samples[i]? with
    | none => .error ()
    | some s =>
      match projectSamples samples is_ with
      | .error e => .error e
      | .ok rest => .ok (s :: rest)

/-- Digit-string parsing for `int()`: all characters must be decimal digits. -/
def parseDigits (ds : List Char) : Option Nat :=
  if ds ≠ [] ∧ ds.all Char.isDigit = true then
    some (ds.foldl (fun n c => n * 10 + (c.toNat - 48)) 0)
  else none

/-- Python `int(str)` for the position column, in the form position columns
take (an optional sign followed by decimal digits); any other text raises
`ValueError`. -/
def parsePos (s : String) : Option Int :=
  match s.data with
  | '-' :: ds => (parseDigits ds).map fun n => -(n : Int)
  | '+' :: ds => (parseDigits ds).map fun n => (n : Int)
  | ds => (parseDigits ds).map fun n => (n : Int)

/-- The column repair `if toks[3] == "N" and toks[4][0] == "<": toks[3] = "."`
(source lines 106-107), with Python's short-circuit evaluation: `toks[4]` is
only accessed when `toks[3]` equals `N`, and each access can raise
`IndexError`. -/
def fixRefN (t : List String) : Except Unit (List String) :=
  match t[3]? with
  | none => .error ()
  | some t3 =>
    if t3 = "N" then
      match t[4]? with
      | none => .error ()
      | some t4 =>
        match t4.data.head? with
        | none => .error ()
        | some c => if c = '<' then .ok (t.set 3 ".") else .ok t
    else .ok t

/-- The tail of a record's construction (source lines 105-109): rebuild
`toks = toks[:9] + samples`, apply the `REF = N` / symbolic-`ALT` repair, and
yield the `(chrom, pos, file_idx, toks)` tuple.  Out-of-range column accesses
and an unparseable position are Python exceptions. -/
def finishLine (fileIdx : Nat) (toks projected : List String) : Except Unit Rec :=
  match fixRefN (toks.take 9 ++ projected) with
  | .error e => .error e
  | .ok t2 =>
    match t2[0]?, t2[1]? with
    | some c0, some c1 =>
      match parsePos c1 with
      | none => .error ()
      | some p => .ok ⟨c0, p, fileIdx, t2⟩
    | _, _ => .error ()

/-- A data line starting with `#` is skipped by `write_vcf_body` (line 96).
Lines are modelled pre-split into columns; the raw line's first character is
the first column's first character. -/
def isComment (toks : List String) : Bool :=
  match toks.head? with
  | none => false
  | some s => s.data.head? = some '#'

/-- Outcome of one iteration of the `write_vcf_body` loop on one line. -/
inductive LineRes where
  | comment : LineRes
  | skip : LineRes
  | rec_ : Rec → LineRes
deriving DecidableEq, Repr

/-- One non-header line of `write_vcf_body` (source lines 96-109): project the
sample columns, optionally drop the record when all projected genotypes are
uninformative, then finish the record. -/
def processLine (idxs : List Nat) (removeRef : Bool) (fileIdx : Nat)
    (toks : List String) : Except Unit LineRes :=
  if isComment toks then .ok .comment
  else
    match projectSamples (toks.drop 9) idxs with
    | .error e => .error e
    | .ok projected =>
      if removeRef ∧ allUnknownOrRef projected = true then .ok .skip
      else
        match finishLine fileIdx toks projected with
        | .error e => .error e
        | .ok r => .ok (.rec_ r)

/-- The observable result of a whole `write_vcf_body` run: the yielded records
plus the `(skipped, tot)` counters reported on stderr. -/
structure BodyOut where
  recs : List Rec
  skipped : Nat
  tot : Nat
deriving DecidableEq, Repr

instance {ε α : Type} [DecidableEq ε] [DecidableEq α] : DecidableEq (Except ε α) :=
  fun a b =>
    match a, b with
    | .error u, .error v =>
      match decEq u v with
      | isTrue h => isTrue (by rw [h])
      | isFalse h => isFalse fun hc => h (by injection hc)
    | .error _, .ok _ => isFalse fun h => Except.noConfusion h
    | .ok _, .error _ => isFalse fun h => Except.noConfusion h
    | .ok x, .ok y =>
      match decEq x y with
      | isTrue h => isTrue (by rw [h])
      | isFalse h => isFalse fun hc => h (by injection hc)

/-- The `for line in xopen(path)` loop of `write_vcf_body`, threading the
`skipped` and `tot` counters.  Any Python exception while processing a line
kills the generator (fatal for that stream). -/
def writeBodyGo (idxs : List Nat) (removeRef : Bool) (fileIdx : Nat) :
    List (List String) → Nat → Nat → Except Unit BodyOut
  | [], skipped, tot => .ok ⟨[], skipped, tot⟩
  | toks :: rest, skipped, tot =>
    match processLine idxs removeRef fileIdx toks with
    | .error e => .error e
    | .ok .comment => writeBodyGo idxs removeRef fileIdx rest skipped tot
    | .ok .skip => writeBodyGo idxs removeRef fileIdx rest (skipped + 1) (tot + 1)
    | .ok (.rec_ r) =>
      match writeBodyGo idxs removeRef fileIdx rest skipped (tot + 1) with
      | .error e => .error e
      | .ok out => .ok ⟨r :: out.recs, out.skipped, out.tot⟩

/-- `write_vcf_body(path, hdr, file_idx, remove_ref)` (source lines 92-112):
the record stream of one source, driven by the projection stored in the
source header's `idxs` entry (line 93). -/
def writeVcfBody (lines : List (List String)) (hdr : Header) (fileIdx : Nat)
    (removeRef : Bool) : Except Unit BodyOut :=
  writeBodyGo (hdr.idxs.map Prod.fst) removeRef fileIdx lines 0 0

/-- Python `\w` on ASCII text: a word character. -/
def isWordChar (c : Char) : Bool := c.isAlphanum || c = '_'

/-- The `ID` extraction of `_patt = re.compile("(\\w+)=<ID=([^,]+),?.*")` via
`_patt.search(line)` (source line 20): scanning left to right, at the first
position where a word character is followed by the literal `=<ID=` and at
least one non-comma character, group 2 captures the maximal run of non-comma
characters.  `none` models a failed search (whose `.groups` call raises). -/
def scanId (prevWord : Bool) : List Char → Option String
  | [] => none
  | c :: rest =>
    if prevWord ∧ "=<ID=".data.isPrefixOf (c :: rest) = true then
      let idChars := ((c :: rest).drop 5).takeWhile (fun ch => ch ≠ ',')
      if idChars.isEmpty then scanId (isWordChar c) rest else some ⟨idChars⟩
    else scanId (isWordChar c) rest

/-- Group 2 of `_patt.search(line)` for a recognized metadata line. -/
def extractId (line : String) : Option String := scanId false line.data

/-- `line.rstrip('\r\n')` (source line 28). -/
def rstripCRLF (s : String) : String :=
  ⟨(s.data.reverse.dropWhile (fun c => c = '\r' || c = '\n')).reverse⟩

/-- `line.split("\t")` on the character list. -/
def splitTabGo (cur : List Char) : List Char → List String
  | [] => [⟨cur.reverse⟩]
  | c :: rest =>
    if c = '\t' then ⟨cur.reverse⟩ :: splitTabGo [] rest
    else splitTabGo (c :: cur) rest

/-- `line.split("\t")`. -/
def splitTab (s : String) : List String := splitTabGo [] s.data

/-- The scanning loop of `get_header` (source lines 25-46) over the lines
after the skipped first line: stop at the first line not starting with `#`,
route recognized categories through the regex (a failed match is a fatal
parse error), read samples from the `#CHROM` line, collect the rest in
`other`. -/
def getHeaderGo : List String → Header → Except Unit Header
  | [], acc => .ok acc
  | line :: rest, acc =>
    if line.data.head? ≠ some '#' then .ok acc
    else
      let l := rstripCRLF line
      if "##INFO".data.isPrefixOf l.data then
        match extractId l with
        | none => .error ()
        | some id => getHeaderGo rest { acc with infos := odSet acc.infos id l }
      else if "##FORMAT".data.isPrefixOf l.data then
        match extractId l with
        | none => .error ()
        | some id => getHeaderGo rest { acc with formats := odSet acc.formats id l }
      else if "##FILTER".data.isPrefixOf l.data then
        match extractId l with
        | none => .error ()
        | some id => getHeaderGo rest { acc with filters := odSet acc.filters id l }
      else if "##contig".data.isPrefixOf l.data then
        match extractId l with
        | none => .error ()
        | some id => getHeaderGo rest { acc with contigs := odSet acc.contigs id l }
      else if "#CHROM\t".data.isPrefixOf l.data then
        getHeaderGo rest { acc with samples := (splitTab l).drop 9 }
      else getHeaderGo rest { acc with other := acc.other ++ [l] }

/-- `get_header(path)` (source lines 19-47): skip the first line (the
`##fileformat` banner), then scan the metadata block. -/
def getHeader (lines : List String) : Except Unit Header :=
  match lines with
  | [] => .ok emptyHeader
  | _ :: rest => getHeaderGo rest emptyHeader

/-! ### Order lemmas -/

theorem char_toNat_inj {a b : Char} (h : a.toNat = b.toNat) : a = b := by
  have hv : a.val = b.val := by
    apply UInt32.ext
    exact h
  exact Char.ext hv

theorem bfalse_btrue {x : Bool} (hf : x = false) (ht : x = true) : False := by
  rw [hf] at ht
  exact Bool.noConfusion ht

theorem charListLt_cons_iff (a b : Char) (as_ bs : List Char) :
    charListLt (a :: as_) (b :: bs) = true ↔
      a.toNat < b.toNat ∨ (a.toNat = b.toNat ∧ charListLt as_ bs = true) := by
  simp only [charListLt]
  split_ifs with h1 h2
  · simp [h1]
  · simp [h1, h2]
  · simp [h1, h2]

theorem charListLt_nil_false (l : List Char) : charListLt l [] = false := by
  cases l <;> rfl

theorem charListLt_irrefl : ∀ l : List Char, charListLt l l = false := by
  intro l
  induction l with
  | nil => rfl
  | cons a t ih =>
    rw [Bool.eq_false_iff]
    intro hc
    rcases (charListLt_cons_iff a a t t).mp hc with h | ⟨_, h⟩
    · omega
    · exact bfalse_btrue ih h

theorem charListLt_asymm :
    ∀ {l1 l2 : List Char}, charListLt l1 l2 = true → charListLt l2 l1 = false := by
  intro l1
  induction l1 with
  | nil =>
    intro l2 _
    exact charListLt_nil_false l2
  | cons a t ih =>
    intro l2 h
    cases l2 with
    | nil => exact absurd h (by simp [charListLt_nil_false])
    | cons b u =>
      rw [Bool.eq_false_iff]
      intro hc
      rcases (charListLt_cons_iff a b t u).mp h with h1 | ⟨h1, hr1⟩ <;>
        rcases (charListLt_cons_iff b a u t).mp hc with h2 | ⟨h2, hr2⟩
      · omega
      · omega
      · omega
      · exact bfalse_btrue (ih hr1) hr2

theorem charListLt_trans :
    ∀ {l1 l2 l3 : List Char}, charListLt l1 l2 = true → charListLt l2 l3 = true →
      charListLt l1 l3 = true := by
  intro l1
  induction l1 with
  | nil =>
    intro l2 l3 h1 h2
    cases l2 with
    | nil => exact absurd h1 (by simp [charListLt_nil_false])
    | cons b u =>
      cases l3 with
      | nil => exact absurd h2 (by simp [charListLt_nil_false])
      | cons c v => rfl
  | cons a t ih =>
    intro l2 l3 h1 h2
    cases l2 with
    | nil => exact absurd h1 (by simp [charListLt_nil_false])
    | cons b u =>
      cases l3 with
      | nil => exact absurd h2 (by simp [charListLt_nil_false])
      | cons c v =>
        rw [charListLt_cons_iff]
        rcases (charListLt_cons_iff a b t u).mp h1 with hab | ⟨hab, hr1⟩ <;>
          rcases (charListLt_cons_iff b c u v).mp h2 with hbc | ⟨hbc, hr2⟩
        · exact Or.inl (by omega)
        · exact Or.inl (by omega)
        · exact Or.inl (by omega)
        · exact Or.inr ⟨by omega, ih hr1 hr2⟩

theorem charListLt_eq_of_false :
    ∀ {l1 l2 : List Char}, charListLt l1 l2 = false → charListLt l2 l1 = false →
      l1 = l2 := by
  intro l1
  induction l1 with
  | nil =>
    intro l2 h1 _
    cases l2 with
    | nil => rfl
    | cons b u => exact absurd h1 (by simp [charListLt])
  | cons a t ih =>
    intro l2 h1 h2
    cases l2 with
    | nil => exact absurd h2 (by simp [charListLt])
    | cons b u =>
      by_cases heq : a.toNat = b.toNat
      · have hr1 : charListLt t u = false := by
          by_cases h : charListLt t u = true
          · exact absurd ((charListLt_cons_iff a b t u).mpr (Or.inr ⟨heq, h⟩))
              (by simp [h1])
          · simpa using h
        have hr2 : charListLt u t = false := by
          by_cases h : charListLt u t = true
          · exact absurd ((charListLt_cons_iff b a u t).mpr (Or.inr ⟨heq.symm, h⟩))
              (by simp [h2])
          · simpa using h
        rw [char_toNat_inj heq, ih hr1 hr2]
      · exfalso
        have hor : a.toNat < b.toNat ∨ b.toNat < a.toNat := by omega
        rcases hor with h | h
        · exact absurd ((charListLt_cons_iff a b t u).mpr (Or.inl h)) (by simp [h1])
        · exact absurd ((charListLt_cons_iff b a u t).mpr (Or.inl h)) (by simp [h2])

theorem strLt_irrefl (a : String) : strLt a a = false := charListLt_irrefl a.data

theorem strLt_asymm {a b : String} (h : strLt a b = true) : strLt b a = false :=
  charListLt_asymm h

theorem strLt_trans {a b c : String} (h1 : strLt a b = true) (h2 : strLt b c = true) :
    strLt a c = true := charListLt_trans h1 h2

theorem strLt_eq {a b : String} (h1 : strLt a b = false) (h2 : strLt b a = false) :
    a = b := by
  have hd : a.data = b.data := charListLt_eq_of_false h1 h2
  cases a
  cases b
  exact congrArg String.mk hd

/-- Propositional form of `recKeyLe`: lexicographic `(chrom, pos, src)`. -/
def KeyLeP (a b : Rec) : Prop :=
  strLt a.chrom b.chrom = true ∨
    (a.chrom = b.chrom ∧ (a.pos < b.pos ∨ (a.pos = b.pos ∧ a.src ≤ b.src)))

/-- Propositional form of `recOrd`: lexicographic `(chrom, pos)`, non-strict. -/
def OrdP (a b : Rec) : Prop :=
  strLt a.chrom b.chrom = true ∨ (a.chrom = b.chrom ∧ a.pos ≤ b.pos)

theorem recKeyLe_iff (a b : Rec) : recKeyLe a b = true ↔ KeyLeP a b := by
  unfold recKeyLe KeyLeP
  split_ifs with h1 h2 h3 h4
  · simp [h1]
  · simp only [false_iff]
    rintro (h | ⟨he, _⟩)
    · exact absurd h h1
    · rw [he] at h2
      exact bfalse_btrue (strLt_irrefl _) h2
  · have he : a.chrom = b.chrom := strLt_eq (by simpa using h1) (by simpa using h2)
    simp only [true_iff]
    exact Or.inr ⟨he, Or.inl h3⟩
  · simp only [false_iff]
    rintro (h | ⟨_, h | ⟨hp, _⟩⟩)
    · exact absurd h h1
    · exact absurd h h3
    · rw [hp] at h4
      exact absurd h4 (lt_irrefl _)
  · have he : a.chrom = b.chrom := strLt_eq (by simpa using h1) (by simpa using h2)
    have hp : a.pos = b.pos := le_antisymm (not_lt.mp h4) (not_lt.mp h3)
    constructor
    · intro h
      exact Or.inr ⟨he, Or.inr ⟨hp, by simpa using h⟩⟩
    · rintro (h | ⟨_, h | ⟨_, h⟩⟩)
      · exact absurd h h1
      · exact absurd h h3
      · simpa using h

theorem recOrd_iff (a b : Rec) : recOrd a b = true ↔ OrdP a b := by
  unfold recOrd OrdP
  split_ifs with h1 h2
  · simp [h1]
  · simp only [false_iff]
    rintro (h | ⟨he, _⟩)
    · exact absurd h h1
    · rw [he] at h2
      exact bfalse_btrue (strLt_irrefl _) h2
  · have he : a.chrom = b.chrom := strLt_eq (by simpa using h1) (by simpa using h2)
    constructor
    · intro h
      exact Or.inr ⟨he, by simpa using h⟩
    · rintro (h | ⟨_, h⟩)
      · exact absurd h h1
      · simpa using h

theorem keyLeP_refl (a : Rec) : KeyLeP a a := Or.inr ⟨rfl, Or.inr ⟨rfl, le_refl _⟩⟩

theorem keyLeP_trans {a b c : Rec} (h1 : KeyLeP a b) (h2 : KeyLeP b c) : KeyLeP a c := by
  unfold KeyLeP at *
  rcases h1 with h1 | ⟨e1, h1⟩
  · rcases h2 with h2 | ⟨e2, _⟩
    · exact Or.inl (strLt_trans h1 h2)
    · exact Or.inl (e2 ▸ h1)
  · rcases h2 with h2 | ⟨e2, h2⟩
    · exact Or.inl (e1 ▸ h2)
    · refine Or.inr ⟨e1.trans e2, ?_⟩
      rcases h1 with h1 | ⟨p1, h1⟩
      · rcases h2 with h2 | ⟨p2, _⟩
        · exact Or.inl (lt_trans h1 h2)
        · exact Or.inl (p2 ▸ h1)
      · rcases h2 with h2 | ⟨p2, h2⟩
        · exact Or.inl (p1 ▸ h2)
        · exact Or.inr ⟨p1.trans p2, le_trans h1 h2⟩

theorem recKeyLe_trans {a b c : Rec} (h1 : recKeyLe a b = true)
    (h2 : recKeyLe b c = true) : recKeyLe a c = true :=
  (recKeyLe_iff a c).mpr (keyLeP_trans ((recKeyLe_iff a b).mp h1) ((recKeyLe_iff b c).mp h2))

/-- A strictly heap-smaller record is `(chrom, pos, src)`-below. -/
theorem keyLt_imp_le {a b : Rec} (h : keyLt a b = true) : recKeyLe a b = true := by
  rw [recKeyLe_iff]
  unfold keyLt at h
  split_ifs at h with h1 h2 h3 h4 h5 h6
  · exact Or.inl h1
  · have he : a.chrom = b.chrom := strLt_eq (by simpa using h1) (by simpa using h2)
    exact Or.inr ⟨he, Or.inl h3⟩
  · have he : a.chrom = b.chrom := strLt_eq (by simpa using h1) (by simpa using h2)
    have hp : a.pos = b.pos := le_antisymm (not_lt.mp h4) (not_lt.mp h3)
    exact Or.inr ⟨he, Or.inr ⟨hp, le_of_lt h5⟩⟩
  · have he : a.chrom = b.chrom := strLt_eq (by simpa using h1) (by simpa using h2)
    have hp : a.pos = b.pos := le_antisymm (not_lt.mp h4) (not_lt.mp h3)
    have hs : a.src = b.src := le_antisymm (Nat.le_of_not_lt h6) (Nat.le_of_not_lt h5)
    exact Or.inr ⟨he, Or.inr ⟨hp, le_of_eq hs⟩⟩

/-- A record that is not heap-smaller is `(chrom, pos, src)`-above. -/
theorem keyLt_false_imp_ge {a b : Rec} (h : keyLt a b = false) : recKeyLe b a = true := by
  rw [recKeyLe_iff]
  unfold keyLt at h
  split_ifs at h with h1 h2 h3 h4 h5 h6
  · exact Or.inl h2
  · have he : a.chrom = b.chrom := strLt_eq (by simpa using h1) (by simpa using h2)
    exact Or.inr ⟨he.symm, Or.inl h4⟩
  · have he : a.chrom = b.chrom := strLt_eq (by simpa using h1) (by simpa using h2)
    have hp : a.pos = b.pos := le_antisymm (not_lt.mp h4) (not_lt.mp h3)
    exact Or.inr ⟨he.symm, Or.inr ⟨hp.symm, le_of_lt h6⟩⟩
  · have he : a.chrom = b.chrom := strLt_eq (by simpa using h1) (by simpa using h2)
    have hp : a.pos = b.pos := le_antisymm (not_lt.mp h4) (not_lt.mp h3)
    have hs : a.src = b.src := le_antisymm (Nat.le_of_not_lt h6) (Nat.le_of_not_lt h5)
    exact Or.inr ⟨he.symm, Or.inr ⟨hp.symm, le_of_eq hs.symm⟩⟩

/-- Stream order plus equal source ranks gives the full key order. -/
theorem recOrd_src_imp_le {a b : Rec} (h : recOrd a b = true) (hs : a.src = b.src) :
    recKeyLe a b = true := by
  rw [recKeyLe_iff]
  rcases (recOrd_iff a b).mp h with h | ⟨he, hp⟩
  · exact Or.inl h
  · rcases lt_or_eq_of_le hp with h | h
    · exact Or.inr ⟨he, Or.inl h⟩
    · exact Or.inr ⟨he, Or.inr ⟨h, le_of_eq hs⟩⟩

theorem recOrd_trans {a b c : Rec} (h1 : recOrd a b = true) (h2 : recOrd b c = true) :
    recOrd a c = true := by
  rw [recOrd_iff] at *
  rcases h1 with h1 | ⟨e1, p1⟩
  · rcases h2 with h2 | ⟨e2, _⟩
    · exact Or.inl (strLt_trans h1 h2)
    · exact Or.inl (e2 ▸ h1)
  · rcases h2 with h2 | ⟨e2, p2⟩
    · exact Or.inl (e1 ▸ h2)
    · exact Or.inr ⟨e1.trans e2, le_trans p1 p2⟩

/-! ### popMin lemmas -/

theorem popMin_eq_none {l : List Rec} : popMin l = none ↔ l = [] := by
  cases l with
  | nil => simp [popMin]
  | cons x xs =>
    simp only [popMin]
    cases h : popMin xs with
    | none => simp
    | some p =>
      obtain ⟨m, ys⟩ := p
      by_cases hk : keyLt m x = true <;> simp [hk]

theorem popMin_perm {l : List Rec} {r : Rec} {l' : List Rec}
    (h : popMin l = some (r, l')) : l.Perm (r :: l') := by
  induction l generalizing r l' with
  | nil => simp [popMin] at h
  | cons x xs ih =>
    cases hx : popMin xs with
    | none =>
      simp only [popMin, hx, Option.some.injEq, Prod.mk.injEq] at h
      have hnil : xs = [] := popMin_eq_none.mp hx
      rw [hnil, ← h.1, ← h.2]
    | some p =>
      obtain ⟨m, ys⟩ := p
      simp only [popMin, hx] at h
      by_cases hk : keyLt m x = true
      · rw [if_pos hk] at h
        simp only [Option.some.injEq, Prod.mk.injEq] at h
        rw [← h.1, ← h.2]
        exact ((ih hx).cons x).trans (List.Perm.swap m x ys)
      · rw [if_neg hk] at h
        simp only [Option.some.injEq, Prod.mk.injEq] at h
        rw [← h.1, ← h.2]

theorem popMin_length {l : List Rec} {r : Rec} {l' : List Rec}
    (h : popMin l = some (r, l')) : l.length = l'.length + 1 := by
  have := (popMin_perm h).length_eq
  simpa using this

theorem popMin_mem {l : List Rec} {r : Rec} {l' : List Rec}
    (h : popMin l = some (r, l')) : r ∈ l :=
  (popMin_perm h).symm.mem_iff.mp (List.mem_cons_self r l')

theorem popMin_subset {l : List Rec} {r : Rec} {l' : List Rec}
    (h : popMin l = some (r, l')) : ∀ y ∈ l', y ∈ l := fun _y hy =>
  (popMin_perm h).symm.mem_iff.mp (List.mem_cons_of_mem r hy)

theorem popMin_min {l : List Rec} {r : Rec} {l' : List Rec}
    (h : popMin l = some (r, l')) : ∀ y ∈ l', recKeyLe r y = true := by
  induction l generalizing r l' with
  | nil => simp [popMin] at h
  | cons x xs ih =>
    cases hx : popMin xs with
    | none =>
      simp only [popMin, hx, Option.some.injEq, Prod.mk.injEq] at h
      rw [← h.2]
      intro y hy
      simp at hy
    | some p =>
      obtain ⟨m, ys⟩ := p
      simp only [popMin, hx] at h
      by_cases hk : keyLt m x = true
      · rw [if_pos hk] at h
        simp only [Option.some.injEq, Prod.mk.injEq] at h
        rw [← h.1, ← h.2]
        intro y hy
        rcases List.mem_cons.mp hy with rfl | hy
        · exact keyLt_imp_le hk
        · exact ih hx y hy
      · rw [if_neg hk] at h
        simp only [Option.some.injEq, Prod.mk.injEq] at h
        rw [← h.1, ← h.2]
        intro y hy
        have hxm : recKeyLe x m = true :=
          keyLt_false_imp_ge (Bool.not_eq_true _ ▸ hk)
        have hmem : y = m ∨ y ∈ ys := by
          have := (popMin_perm hx).mem_iff.mp hy
          simpa using this
        rcases hmem with rfl | hy'
        · exact hxm
        · exact recKeyLe_trans hxm (ih hx y hy')

/-! ### The scheduler invariant -/

/-- The queue entries belonging to source `j`. -/
def srcFilter (j : Nat) (pq : List Rec) : List Rec :=
  pq.filter fun x => decide (x.src = j)

theorem srcFilter_nil (j : Nat) : srcFilter j [] = [] := rfl

theorem srcFilter_cons_pos {x : Rec} {j : Nat} (l : List Rec) (h : x.src = j) :
    srcFilter j (x :: l) = x :: srcFilter j l := by
  simp [srcFilter, List.filter_cons, h]

theorem srcFilter_cons_neg {x : Rec} {j : Nat} (l : List Rec) (h : x.src ≠ j) :
    srcFilter j (x :: l) = srcFilter j l := by
  simp [srcFilter, List.filter_cons, h]

theorem srcFilter_perm {j : Nat} {l l' : List Rec} (h : l.Perm l') :
    (srcFilter j l).Perm (srcFilter j l') := h.filter _

theorem mem_srcFilter {j : Nat} {x : Rec} {l : List Rec} (hx : x ∈ l) (hs : x.src = j) :
    x ∈ srcFilter j l := by
  simp [srcFilter, List.mem_filter, hx, hs]

/-- A still-active stream keeps exactly one pending record (its frontier,
below all of the stream's remaining records) in the queue; an exhausted
stream keeps none and has no remaining records. -/
def Slot (j : Nat) (g pq : List Rec) : Prop :=
  (∃ f, srcFilter j pq = [f] ∧ ∀ y ∈ g, recKeyLe f y = true) ∨
    (srcFilter j pq = [] ∧ g = [])

/-- The state invariant of the merge loop, apart from the last-emitted bound:
both streams sorted by `(chrom, pos)` and tagged with their rank, queue
entries tagged 0 or 1, and one frontier slot per stream. -/
structure InvBase (g1 g2 pq : List Rec) : Prop where
  pair1 : List.Pairwise (fun a b => recOrd a b = true) g1
  pair2 : List.Pairwise (fun a b => recOrd a b = true) g2
  src1 : ∀ r ∈ g1, r.src = 0
  src2 : ∀ r ∈ g2, r.src = 1
  pqsrc : ∀ x ∈ pq, x.src = 0 ∨ x.src = 1
  slot0 : Slot 0 g1 pq
  slot1 : Slot 1 g2 pq

/-- Everything pending is at or above the last emitted record. -/
def lastLe (lastR : Option Rec) (pq : List Rec) : Prop :=
  ∀ l, lastR = some l → ∀ x ∈ pq, recKeyLe l x = true

theorem slot_pop_own {j : Nat} {g pq pq1 : List Rec} {r : Rec} (hs : Slot j g pq)
    (hpop : popMin pq = some (r, pq1)) (hr : r.src = j) :
    srcFilter j pq1 = [] ∧ ∀ y ∈ g, recKeyLe r y = true := by
  have hmem : r ∈ srcFilter j pq := mem_srcFilter (popMin_mem hpop) hr
  rcases hs with ⟨f, hf, hfr⟩ | ⟨hf, _⟩
  · have hrf : r = f := by rw [hf] at hmem; simpa using hmem
    have hp : (srcFilter j pq).Perm (srcFilter j (r :: pq1)) := srcFilter_perm (popMin_perm hpop)
    rw [hf, srcFilter_cons_pos _ hr] at hp
    have hlen : (1 : Nat) = (srcFilter j pq1).length + 1 := by simpa using hp.length_eq
    have hnil : srcFilter j pq1 = [] := by
      have : (srcFilter j pq1).length = 0 := by omega
      exact List.length_eq_zero.mp this
    exact ⟨hnil, by rw [hrf]; exact hfr⟩
  · rw [hf] at hmem; simp at hmem

theorem slot_pop_other {j : Nat} {g pq pq1 : List Rec} {r : Rec} (hs : Slot j g pq)
    (hpop : popMin pq = some (r, pq1)) (hr : r.src ≠ j) : Slot j g pq1 := by
  have hp : (srcFilter j pq).Perm (srcFilter j (r :: pq1)) := srcFilter_perm (popMin_perm hpop)
  rw [srcFilter_cons_neg _ hr] at hp
  rcases hs with ⟨f, hf, hfr⟩ | ⟨hf, hg⟩
  · refine Or.inl ⟨f, ?_, hfr⟩
    rw [hf] at hp
    exact (List.perm_singleton.mp hp.symm)
  · refine Or.inr ⟨?_, hg⟩
    rw [hf] at hp
    exact hp.symm.eq_nil

theorem slot_cons_ne {j : Nat} {g pq : List Rec} {a : Rec} (hs : Slot j g pq)
    (ha : a.src ≠ j) : Slot j g (a :: pq) := by
  rcases hs with ⟨f, hf, hfr⟩ | ⟨hf, hg⟩
  · exact Or.inl ⟨f, by rw [srcFilter_cons_neg _ ha, hf], hfr⟩
  · exact Or.inr ⟨by rw [srcFilter_cons_neg _ ha, hf], hg⟩

theorem length_srcFilter_sum :
    ∀ pq : List Rec, (∀ x ∈ pq, x.src = 0 ∨ x.src = 1) →
      pq.length = (srcFilter 0 pq).length + (srcFilter 1 pq).length := by
  intro pq
  induction pq with
  | nil => intro _; rfl
  | cons x xs ih =>
    intro hsrc
    have hx := hsrc x (List.mem_cons_self x xs)
    have ih' := ih fun y hy => hsrc y (List.mem_cons_of_mem x hy)
    rcases hx with hx | hx
    · rw [srcFilter_cons_pos _ hx, srcFilter_cons_neg _ (by omega : x.src ≠ 1)]
      simp only [List.length_cons, ih']
      omega
    · rw [srcFilter_cons_neg _ (by omega : x.src ≠ 0), srcFilter_cons_pos _ hx]
      simp only [List.length_cons, ih']
      omega

/-- With one slot per source and only sources 0 and 1, the queue holds at
most two records. -/
theorem pq_length_le_two {g1 g2 pq : List Rec} (hb : InvBase g1 g2 pq) :
    pq.length ≤ 2 := by
  have h0 : (srcFilter 0 pq).length ≤ 1 := by
    rcases hb.slot0 with ⟨f, hf, _⟩ | ⟨hf, _⟩ <;> simp [hf]
  have h1 : (srcFilter 1 pq).length ≤ 1 := by
    rcases hb.slot1 with ⟨f, hf, _⟩ | ⟨hf, _⟩ <;> simp [hf]
  have hsum := length_srcFilter_sum pq hb.pqsrc
  omega

theorem pairwise_head {R : Rec → Rec → Prop} {a : Rec} {l : List Rec}
    (h : List.Pairwise R (a :: l)) : ∀ y ∈ l, R a y :=
  (List.pairwise_cons.mp h).1

theorem sortedRecs_pairwise :
    ∀ {l : List Rec}, sortedRecs l = true →
      List.Pairwise (fun a b => recOrd a b = true) l := by
  intro l
  induction l with
  | nil => intro _; exact List.Pairwise.nil
  | cons a t ih =>
    intro h
    cases t with
    | nil => simp
    | cons b u =>
      simp only [sortedRecs, Bool.and_eq_true] at h
      have hrest := ih h.2
      refine List.pairwise_cons.mpr ⟨?_, hrest⟩
      intro y hy
      rcases List.mem_cons.mp hy with rfl | hy
      · exact h.1
      · exact recOrd_trans h.1 (pairwise_head hrest y hy)

/-- Refilling the popped record's own stream (the `heappush(pq, next(gens[i]))`
at the bottom of the loop) restores the invariant, with the popped record as
the new last-emitted bound. -/
theorem invBase_step {g1 g2 pq pq1 : List Rec} {r : Rec} (hb : InvBase g1 g2 pq)
    (hpop : popMin pq = some (r, pq1)) :
    InvBase (pullSrc g1 g2 r.src).2.1 (pullSrc g1 g2 r.src).2.2
      (pushOpt pq1 (pullSrc g1 g2 r.src).1) ∧
    lastLe (some r) (pushOpt pq1 (pullSrc g1 g2 r.src).1) := by
  have hpq1sub : ∀ y ∈ pq1, y ∈ pq := popMin_subset hpop
  have hmin := popMin_min hpop
  rcases hb.pqsrc r (popMin_mem hpop) with hr | hr
  · -- the popped record came from stream 0
    obtain ⟨hfilt0, hfront⟩ := slot_pop_own hb.slot0 hpop hr
    have hslot1 : Slot 1 g2 pq1 := slot_pop_other hb.slot1 hpop (by omega)
    rw [hr]
    cases g1 with
    | nil =>
      simp only [pullSrc_zero, pull1, pushOpt]
      refine ⟨⟨List.Pairwise.nil, hb.pair2, by simp, hb.src2,
        fun x hx => hb.pqsrc x (hpq1sub x hx), Or.inr ⟨hfilt0, rfl⟩, hslot1⟩, ?_⟩
      intro l hl x hx
      cases hl
      exact hmin x hx
    | cons a t1 =>
      simp only [pullSrc_zero, pull1, pushOpt]
      have ha0 : a.src = 0 := hb.src1 a (List.mem_cons_self a t1)
      refine ⟨⟨(List.pairwise_cons.mp hb.pair1).2, hb.pair2,
        fun y hy => hb.src1 y (List.mem_cons_of_mem a hy), hb.src2, ?_, ?_, ?_⟩, ?_⟩
      · intro x hx
        rcases List.mem_cons.mp hx with rfl | hx
        · exact Or.inl ha0
        · exact hb.pqsrc x (hpq1sub x hx)
      · refine Or.inl ⟨a, ?_, ?_⟩
        · rw [srcFilter_cons_pos _ ha0, hfilt0]
        · intro y hy
          exact recOrd_src_imp_le (pairwise_head hb.pair1 y hy)
            (ha0.trans (hb.src1 y (List.mem_cons_of_mem a hy)).symm)
      · exact slot_cons_ne hslot1 (by omega)
      · intro l hl x hx
        cases hl
        rcases List.mem_cons.mp hx with rfl | hx
        · exact hfront x (List.mem_cons_self x t1)
        · exact hmin x hx
  · -- the popped record came from stream 1
    obtain ⟨hfilt1, hfront⟩ := slot_pop_own hb.slot1 hpop hr
    have hslot0 : Slot 0 g1 pq1 := slot_pop_other hb.slot0 hpop (by omega)
    rw [hr]
    cases g2 with
    | nil =>
      simp only [pullSrc_one, pull1, pushOpt]
      refine ⟨⟨hb.pair1, List.Pairwise.nil, hb.src1, by simp,
        fun x hx => hb.pqsrc x (hpq1sub x hx), hslot0, Or.inr ⟨hfilt1, rfl⟩⟩, ?_⟩
      intro l hl x hx
      cases hl
      exact hmin x hx
    | cons a t2 =>
      simp only [pullSrc_one, pull1, pushOpt]
      have ha1 : a.src = 1 := hb.src2 a (List.mem_cons_self a t2)
      refine ⟨⟨hb.pair1, (List.pairwise_cons.mp hb.pair2).2, hb.src1,
        fun y hy => hb.src2 y (List.mem_cons_of_mem a hy), ?_, ?_, ?_⟩, ?_⟩
      · intro x hx
        rcases List.mem_cons.mp hx with rfl | hx
        · exact Or.inr ha1
        · exact hb.pqsrc x (hpq1sub x hx)
      · exact slot_cons_ne hslot0 (by omega)
      · refine Or.inl ⟨a, ?_, ?_⟩
        · rw [srcFilter_cons_pos _ ha1, hfilt1]
        · intro y hy
          exact recOrd_src_imp_le (pairwise_head hb.pair2 y hy)
            (ha1.trans (hb.src2 y (List.mem_cons_of_mem a hy)).symm)
      · intro l hl x hx
        cases hl
        rcases List.mem_cons.mp hx with rfl | hx
        · exact hfront x (List.mem_cons_self x t2)
        · exact hmin x hx

/-- Re-seeding the queue from both streams after a chromosome-boundary flush
(the `for k in range(2)` refill at source lines 139-143) restores the
invariant on an emptied queue. -/
theorem invBase_reseed {g1 g2 : List Rec} (hp1 : List.Pairwise (fun a b => recOrd a b = true) g1)
    (hp2 : List.Pairwise (fun a b => recOrd a b = true) g2)
    (hs1 : ∀ r ∈ g1, r.src = 0) (hs2 : ∀ r ∈ g2, r.src = 1) :
    InvBase (pull1 g1).2 (pull1 g2).2 (pushOpt (pushOpt [] (pull1 g1).1) (pull1 g2).1) := by
  cases g1 with
  | nil =>
    cases g2 with
    | nil =>
      exact ⟨List.Pairwise.nil, List.Pairwise.nil, by simp [pull1], by simp [pull1],
        by simp [pull1, pushOpt], Or.inr ⟨rfl, rfl⟩, Or.inr ⟨rfl, rfl⟩⟩
    | cons b t2 =>
      have hb1 : b.src = 1 := hs2 b (List.mem_cons_self b t2)
      simp only [pull1, pushOpt]
      refine ⟨List.Pairwise.nil, (List.pairwise_cons.mp hp2).2, by simp,
        fun y hy => hs2 y (List.mem_cons_of_mem b hy), ?_, ?_, ?_⟩
      · intro x hx
        rcases List.mem_cons.mp hx with rfl | hx
        · exact Or.inr hb1
        · simp at hx
      · exact Or.inr ⟨by rw [srcFilter_cons_neg _ (by omega)]; rfl, rfl⟩
      · refine Or.inl ⟨b, by rw [srcFilter_cons_pos _ hb1]; rfl, ?_⟩
        intro y hy
        exact recOrd_src_imp_le (pairwise_head hp2 y hy)
          (hb1.trans (hs2 y (List.mem_cons_of_mem b hy)).symm)
  | cons a t1 =>
    have ha0 : a.src = 0 := hs1 a (List.mem_cons_self a t1)
    cases g2 with
    | nil =>
      simp only [pull1, pushOpt]
      refine ⟨(List.pairwise_cons.mp hp1).2, List.Pairwise.nil,
        fun y hy => hs1 y (List.mem_cons_of_mem a hy), by simp, ?_, ?_, ?_⟩
      · intro x hx
        rcases List.mem_cons.mp hx with rfl | hx
        · exact Or.inl ha0
        · simp at hx
      · refine Or.inl ⟨a, by rw [srcFilter_cons_pos _ ha0]; rfl, ?_⟩
        intro y hy
        exact recOrd_src_imp_le (pairwise_head hp1 y hy)
          (ha0.trans (hs1 y (List.mem_cons_of_mem a hy)).symm)
      · exact Or.inr ⟨by rw [srcFilter_cons_neg _ (by omega)]; rfl, rfl⟩
    | cons b t2 =>
      have hb1 : b.src = 1 := hs2 b (List.mem_cons_self b t2)
      simp only [pull1, pushOpt]
      refine ⟨(List.pairwise_cons.mp hp1).2, (List.pairwise_cons.mp hp2).2,
        fun y hy => hs1 y (List.mem_cons_of_mem a hy),
        fun y hy => hs2 y (List.mem_cons_of_mem b hy), ?_, ?_, ?_⟩
      · intro x hx
        rcases List.mem_cons.mp hx with rfl | hx
        · exact Or.inr hb1
        · rcases List.mem_cons.mp hx with rfl | hx
          · exact Or.inl ha0
          · simp at hx
      · refine Or.inl ⟨a, ?_, ?_⟩
        · rw [srcFilter_cons_neg _ (by omega : b.src ≠ 0), srcFilter_cons_pos _ ha0]; rfl
        · intro y hy
          exact recOrd_src_imp_le (pairwise_head hp1 y hy)
            (ha0.trans (hs1 y (List.mem_cons_of_mem a hy)).symm)
      · refine Or.inl ⟨b, ?_, ?_⟩
        · rw [srcFilter_cons_pos _ hb1, srcFilter_cons_neg _ (by omega : a.src ≠ 1)]; rfl
        · intro y hy
          exact recOrd_src_imp_le (pairwise_head hp2 y hy)
            (hb1.trans (hs2 y (List.mem_cons_of_mem b hy)).symm)

/-- Multiset bookkeeping for one pull-and-push refill. -/
theorem pullSrc_pushOpt_perm (g1 g2 : List Rec) (s : Nat) (pq : List Rec) :
    (pushOpt pq (pullSrc g1 g2 s).1 ++ (pullSrc g1 g2 s).2.1 ++
      (pullSrc g1 g2 s).2.2).Perm (pq ++ g1 ++ g2) := by
  by_cases hs : s = 0
  · cases g1 with
    | nil => simp [pullSrc, hs, pull1, pushOpt]
    | cons a t1 =>
      simp only [pullSrc, if_pos hs, pull1, pushOpt]
      exact ((List.perm_middle).symm.append_right g2)
  · cases g2 with
    | nil => simp [pullSrc, hs, pull1, pushOpt]
    | cons b t2 =>
      simp only [pullSrc, if_neg hs, pull1, pushOpt]
      have h1 : ((b :: pq) ++ g1 ++ t2 : List Rec) = b :: (pq ++ g1 ++ t2) := by simp
      rw [h1]
      exact List.perm_middle.symm

theorem pullSrc_pushOpt_length (g1 g2 : List Rec) (s : Nat) (pq : List Rec) :
    (pushOpt pq (pullSrc g1 g2 s).1).length + (pullSrc g1 g2 s).2.1.length +
      (pullSrc g1 g2 s).2.2.length ≤ pq.length + g1.length + g2.length := by
  have := (pullSrc_pushOpt_perm g1 g2 s pq).length_eq
  simp only [List.length_append] at this
  omega

/-- Multiset bookkeeping for the boundary re-seed on an emptied queue. -/
theorem reseed_perm (g1 g2 : List Rec) :
    (pushOpt (pushOpt [] (pull1 g1).1) (pull1 g2).1 ++ (pull1 g1).2 ++
      (pull1 g2).2).Perm (g1 ++ g2) := by
  cases g1 with
  | nil =>
    cases g2 with
    | nil => simp [pull1, pushOpt]
    | cons b t2 => simp [pull1, pushOpt]
  | cons a t1 =>
    cases g2 with
    | nil => simp [pull1, pushOpt]
    | cons b t2 =>
      simp only [pull1, pushOpt]
      have h1 : ([b, a] ++ t1 ++ t2 : List Rec) = b :: (a :: t1 ++ t2) := by simp
      rw [h1]
      exact List.perm_middle.symm

theorem reseed_length (g1 g2 : List Rec) :
    (pushOpt (pushOpt [] (pull1 g1).1) (pull1 g2).1).length + (pull1 g1).2.length +
      (pull1 g2).2.length ≤ g1.length + g2.length := by
  have := (reseed_perm g1 g2).length_eq
  simp only [List.length_append] at this
  omega

/-! ### Unfolding equations for one iteration of the merge loop -/

theorem mergeLoop_succ_empty {fuel : Nat} {g1 g2 pq : List Rec} {lc : Option String}
    (h : popMin pq = none) : mergeLoop (fuel + 1) g1 g2 pq lc = ([], false) := by
  simp [mergeLoop, h]

theorem mergeLoop_succ_normal {fuel : Nat} {g1 g2 pq pq1 : List Rec} {r : Rec}
    {lc : Option String} (h : popMin pq = some (r, pq1)) (hb : boundaryAt lc r = false) :
    mergeLoop (fuel + 1) g1 g2 pq lc =
      ((r, false) ::
        (mergeLoop fuel (pullSrc g1 g2 r.src).2.1 (pullSrc g1 g2 r.src).2.2
          (pushOpt pq1 (pullSrc g1 g2 r.src).1) (some r.chrom)).1,
       (mergeLoop fuel (pullSrc g1 g2 r.src).2.1 (pullSrc g1 g2 r.src).2.2
          (pushOpt pq1 (pullSrc g1 g2 r.src).1) (some r.chrom)).2) := by
  simp [mergeLoop, h, hb]

theorem mergeLoop_succ_flush_crash {fuel : Nat} {g1 g2 pq pq1 : List Rec} {r : Rec}
    {lc : Option String} (h : popMin pq = some (r, pq1)) (hb : boundaryAt lc r = true)
    (h2 : popMin pq1 = none) :
    mergeLoop (fuel + 1) g1 g2 pq lc = ([(r, false)], true) := by
  simp [mergeLoop, h, hb, h2]

theorem mergeLoop_succ_flush_break {fuel : Nat} {g1 g2 pq pq1 pq2 : List Rec} {r r2 : Rec}
    {lc : Option String} (h : popMin pq = some (r, pq1)) (hb : boundaryAt lc r = true)
    (h2 : popMin pq1 = some (r2, pq2))
    (h3 : popMin (pushOpt (pushOpt pq2 (pull1 g1).1) (pull1 g2).1) = none) :
    mergeLoop (fuel + 1) g1 g2 pq lc = ([(r, false), (r2, false)], false) := by
  simp [mergeLoop, h, hb, h2, h3]

theorem mergeLoop_succ_flush_go {fuel : Nat} {g1 g2 pq pq1 pq2 pq4 : List Rec} {r r2 r3 : Rec}
    {lc : Option String} (h : popMin pq = some (r, pq1)) (hb : boundaryAt lc r = true)
    (h2 : popMin pq1 = some (r2, pq2))
    (h3 : popMin (pushOpt (pushOpt pq2 (pull1 g1).1) (pull1 g2).1) = some (r3, pq4)) :
    mergeLoop (fuel + 1) g1 g2 pq lc =
      ((r, false) :: (r2, false) :: (r3, true) ::
        (mergeLoop fuel (pullSrc (pull1 g1).2 (pull1 g2).2 r3.src).2.1
          (pullSrc (pull1 g1).2 (pull1 g2).2 r3.src).2.2
          (pushOpt pq4 (pullSrc (pull1 g1).2 (pull1 g2).2 r3.src).1) (some r3.chrom)).1,
       (mergeLoop fuel (pullSrc (pull1 g1).2 (pull1 g2).2 r3.src).2.1
          (pullSrc (pull1 g1).2 (pull1 g2).2 r3.src).2.2
          (pushOpt pq4 (pullSrc (pull1 g1).2 (pull1 g2).2 r3.src).1) (some r3.chrom)).2) := by
  simp [mergeLoop, h, hb, h2, h3]

/-- The central run lemma for the merge loop: from any invariant state with
enough fuel, (i) every emitted adjacent pair that does not end in a
boundary-flush resume record is non-decreasing in `(chrom, pos, src)`, and
(ii) if the loop finishes without crashing, the emitted records are exactly
the queued and pending ones, each exactly once. -/
theorem mergeLoop_main :
    ∀ (fuel : Nat) (g1 g2 pq : List Rec) (lastR : Option Rec),
      InvBase g1 g2 pq → lastLe lastR pq →
      pq.length + g1.length + g2.length + 1 ≤ fuel →
      flushOrdered lastR (mergeLoop fuel g1 g2 pq (Option.map Rec.chrom lastR)).1 = true ∧
      ((mergeLoop fuel g1 g2 pq (Option.map Rec.chrom lastR)).2 = false →
        ((mergeLoop fuel g1 g2 pq (Option.map Rec.chrom lastR)).1.map Prod.fst).Perm
          (pq ++ g1 ++ g2)) := by
  intro fuel
  induction fuel with
  | zero =>
    intro g1 g2 pq lastR _ _ hfuel
    omega
  | succ fuel ih =>
    intro g1 g2 pq lastR hb hlast hfuel
    cases hpop : popMin pq with
    | none =>
      rw [mergeLoop_succ_empty hpop]
      have hpq : pq = [] := popMin_eq_none.mp hpop
      have hg1 : g1 = [] := by
        rcases hb.slot0 with ⟨f, hf, _⟩ | ⟨_, hg⟩
        · rw [hpq] at hf; simp [srcFilter] at hf
        · exact hg
      have hg2 : g2 = [] := by
        rcases hb.slot1 with ⟨f, hf, _⟩ | ⟨_, hg⟩
        · rw [hpq] at hf; simp [srcFilter] at hf
        · exact hg
      refine ⟨rfl, fun _ => ?_⟩
      rw [hpq, hg1, hg2]
      simp
    | some p =>
      obtain ⟨r, pq1⟩ := p
      have hrmem := popMin_mem hpop
      have hmin := popMin_min hpop
      have hperm := popMin_perm hpop
      by_cases hbd : boundaryAt (Option.map Rec.chrom lastR) r = true
      · obtain ⟨l, rfl⟩ : ∃ l, lastR = some l := by
          cases lastR with
          | none => simp [boundaryAt] at hbd
          | some l => exact ⟨l, rfl⟩
        have hlr : recKeyLe l r = true := hlast l rfl r hrmem
        cases hpop2 : popMin pq1 with
        | none =>
          rw [mergeLoop_succ_flush_crash hpop hbd hpop2]
          refine ⟨by simp [flushOrdered, hlr], fun hcr => by simp at hcr⟩
        | some p2 =>
          obtain ⟨r2, pq2⟩ := p2
          have hr2 : recKeyLe r r2 = true := hmin r2 (popMin_mem hpop2)
          have hlen2 : pq.length = pq2.length + 2 := by
            have e1 := popMin_length hpop
            have e2 := popMin_length hpop2
            omega
          have hle2 := pq_length_le_two hb
          have hpq2 : pq2 = [] := List.length_eq_zero.mp (by omega)
          subst hpq2
          have hpqperm : pq.Perm [r, r2] := hperm.trans ((popMin_perm hpop2).cons r)
          cases hpop3 : popMin (pushOpt (pushOpt [] (pull1 g1).1) (pull1 g2).1) with
          | none =>
            rw [mergeLoop_succ_flush_break hpop hbd hpop2 hpop3]
            have h30 := popMin_eq_none.mp hpop3
            have hg1 : g1 = [] := by
              cases g1 with
              | nil => rfl
              | cons a t1 =>
                cases g2 with
                | nil => simp [pull1, pushOpt] at h30
                | cons b t2 => simp [pull1, pushOpt] at h30
            have hg2 : g2 = [] := by
              cases g2 with
              | nil => rfl
              | cons b t2 =>
                cases g1 with
                | nil => simp [pull1, pushOpt] at h30
                | cons a t1 => simp [pull1, pushOpt] at h30
            refine ⟨by simp [flushOrdered, hlr, hr2], fun _ => ?_⟩
            rw [hg1, hg2]
            simpa using hpqperm.symm
          | some p3 =>
            obtain ⟨r3, pq4⟩ := p3
            rw [mergeLoop_succ_flush_go hpop hbd hpop2 hpop3]
            have hreseed := invBase_reseed hb.pair1 hb.pair2 hb.src1 hb.src2
            have hstep := invBase_step hreseed hpop3
            have hf3 : (pushOpt pq4 (pullSrc (pull1 g1).2 (pull1 g2).2 r3.src).1).length +
                (pullSrc (pull1 g1).2 (pull1 g2).2 r3.src).2.1.length +
                (pullSrc (pull1 g1).2 (pull1 g2).2 r3.src).2.2.length + 1 ≤ fuel := by
              have hA := pullSrc_pushOpt_length (pull1 g1).2 (pull1 g2).2 r3.src pq4
              have hB := popMin_length hpop3
              have hC := reseed_length g1 g2
              omega
            have hrec := ih _ _ _ (some r3) hstep.1 hstep.2 hf3
            simp only [Option.map_some'] at hrec
            refine ⟨by simp [flushOrdered, hlr, hr2, hrec.1], fun hcr => ?_⟩
            have hrest := hrec.2 hcr
            simp only [List.map_cons]
            have hchain :
                ((mergeLoop fuel (pullSrc (pull1 g1).2 (pull1 g2).2 r3.src).2.1
                    (pullSrc (pull1 g1).2 (pull1 g2).2 r3.src).2.2
                    (pushOpt pq4 (pullSrc (pull1 g1).2 (pull1 g2).2 r3.src).1)
                    (some r3.chrom)).1.map Prod.fst).Perm
                  (pq4 ++ (pull1 g1).2 ++ (pull1 g2).2) :=
              hrest.trans (pullSrc_pushOpt_perm (pull1 g1).2 (pull1 g2).2 r3.src pq4)
            have h3chain :
                (r3 :: (pq4 ++ (pull1 g1).2 ++ (pull1 g2).2)).Perm (g1 ++ g2) := by
              have hmid : (r3 :: (pq4 ++ (pull1 g1).2 ++ (pull1 g2).2)).Perm
                  (pushOpt (pushOpt [] (pull1 g1).1) (pull1 g2).1 ++ (pull1 g1).2 ++
                    (pull1 g2).2) := by
                have := (popMin_perm hpop3).symm
                exact (this.append_right (pull1 g1).2).append_right (pull1 g2).2
              exact hmid.trans (reseed_perm g1 g2)
            have hfinal : (r :: r2 :: r3 ::
                ((mergeLoop fuel (pullSrc (pull1 g1).2 (pull1 g2).2 r3.src).2.1
                    (pullSrc (pull1 g1).2 (pull1 g2).2 r3.src).2.2
                    (pushOpt pq4 (pullSrc (pull1 g1).2 (pull1 g2).2 r3.src).1)
                    (some r3.chrom)).1.map Prod.fst)).Perm (r :: r2 :: (g1 ++ g2)) :=
              (((hchain.cons r3).trans h3chain).cons r2).cons r
            refine hfinal.trans ?_
            have : (pq ++ g1 ++ g2).Perm ([r, r2] ++ g1 ++ g2) :=
              (hpqperm.append_right g1).append_right g2
            exact (this.symm).symm.symm
      · have hbd' : boundaryAt (Option.map Rec.chrom lastR) r = false := by
          revert hbd
          cases boundaryAt (Option.map Rec.chrom lastR) r <;> simp
        rw [mergeLoop_succ_normal hpop hbd']
        have hstep := invBase_step hb hpop
        have hf2 : (pushOpt pq1 (pullSrc g1 g2 r.src).1).length +
            (pullSrc g1 g2 r.src).2.1.length + (pullSrc g1 g2 r.src).2.2.length + 1 ≤ fuel := by
          have hA := pullSrc_pushOpt_length g1 g2 r.src pq1
          have hB := popMin_length hpop
          omega
        have hrec := ih _ _ _ (some r) hstep.1 hstep.2 hf2
        simp only [Option.map_some'] at hrec
        have hXgen : ∀ o : Option Rec, (∀ l, o = some l → recKeyLe l r = true) →
            (match o with | none => true | some l => recKeyLe l r) = true := by
          intro o ho
          cases o with
          | none => rfl
          | some l => exact ho l rfl
        have hX := hXgen lastR fun l hl => hlast l hl r hrmem
        refine ⟨by simp [flushOrdered, hX, hrec.1], fun hcr => ?_⟩
        have hrest := hrec.2 hcr
        simp only [List.map_cons]
        have hchain :
            ((mergeLoop fuel (pullSrc g1 g2 r.src).2.1 (pullSrc g1 g2 r.src).2.2
                (pushOpt pq1 (pullSrc g1 g2 r.src).1) (some r.chrom)).1.map Prod.fst).Perm
              (pq1 ++ g1 ++ g2) :=
          hrest.trans (pullSrc_pushOpt_perm g1 g2 r.src pq1)
        refine (hchain.cons r).trans ?_
        have : (pq ++ g1 ++ g2).Perm ((r :: pq1) ++ g1 ++ g2) :=
          (hperm.append_right g1).append_right g2
        exact this.symm

/-- `mergeMain` seeded from two non-trivial sorted streams: ordering (up to
flush-resume records) always holds, and a crash-free run emits exactly the
input records. -/
theorem mergeMain_run (s1 s2 : List Rec)
    (h1 : sortedRecs s1 = true)
    (h2 : sortedRecs s2 = true)
    (hsrc1 : ∀ r ∈ s1, r.src = 0) (hsrc2 : ∀ r ∈ s2, r.src = 1) :
    flushOrdered none (mergeMain s1 s2).1 = true ∧
    ((mergeMain s1 s2).2 = false →
      ((mergeMain s1 s2).1.map Prod.fst).Perm (s1 ++ s2)) := by
  cases s1 with
  | nil => exact ⟨rfl, fun hcr => by simp [mergeMain] at hcr⟩
  | cons r1 t1 =>
    cases s2 with
    | nil => exact ⟨rfl, fun hcr => by simp [mergeMain] at hcr⟩
    | cons r2 t2 =>
      have hp1 : List.Pairwise (fun a b => recOrd a b = true) (r1 :: t1) :=
        sortedRecs_pairwise h1
      have hp2 : List.Pairwise (fun a b => recOrd a b = true) (r2 :: t2) :=
        sortedRecs_pairwise h2
      have hr1 : r1.src = 0 := hsrc1 r1 (List.mem_cons_self r1 t1)
      have hr2 : r2.src = 1 := hsrc2 r2 (List.mem_cons_self r2 t2)
      have hbase : InvBase t1 t2 [r1, r2] := by
        refine ⟨(List.pairwise_cons.mp hp1).2, (List.pairwise_cons.mp hp2).2,
          fun y hy => hsrc1 y (List.mem_cons_of_mem r1 hy),
          fun y hy => hsrc2 y (List.mem_cons_of_mem r2 hy), ?_, ?_, ?_⟩
        · intro x hx
          rcases List.mem_cons.mp hx with rfl | hx
          · exact Or.inl hr1
          · rcases List.mem_cons.mp hx with rfl | hx
            · exact Or.inr hr2
            · simp at hx
        · refine Or.inl ⟨r1, ?_, ?_⟩
          · rw [srcFilter_cons_pos _ hr1, srcFilter_cons_neg _ (by omega : r2.src ≠ 0)]
            rfl
          · intro y hy
            exact recOrd_src_imp_le (pairwise_head hp1 y hy)
              (hr1.trans (hsrc1 y (List.mem_cons_of_mem r1 hy)).symm)
        · refine Or.inl ⟨r2, ?_, ?_⟩
          · rw [srcFilter_cons_neg _ (by omega : r1.src ≠ 1), srcFilter_cons_pos _ hr2]
            rfl
          · intro y hy
            exact recOrd_src_imp_le (pairwise_head hp2 y hy)
              (hr2.trans (hsrc2 y (List.mem_cons_of_mem r2 hy)).symm)
      have hlast : lastLe none [r1, r2] := fun l hl => by cases hl
      have hfuel : ([r1, r2] : List Rec).length + t1.length + t2.length + 1 ≤
          (r1 :: t1).length + (r2 :: t2).length + 1 := by
        simp
        omega
      have hmain := mergeLoop_main ((r1 :: t1).length + (r2 :: t2).length + 1)
        t1 t2 [r1, r2] none hbase hlast hfuel
      refine ⟨hmain.1, fun hcr => ?_⟩
      refine (hmain.2 hcr).trans ?_
      have hmid : (r2 :: (t1 ++ t2)).Perm (t1 ++ r2 :: t2) := List.perm_middle.symm
      exact hmid.cons r1

theorem fixRefN_spec {t t2 : List String} (h : fixRefN t = .ok t2) :
    t2 = t ∨ t2 = t.set 3 "." := by
  unfold fixRefN at h
  split at h
  · exact absurd h (by simp)
  · split at h
    · split at h
      · exact absurd h (by simp)
      · split at h
        · exact absurd h (by simp)
        · split at h
          · simp only [Except.ok.injEq] at h
            exact Or.inr h.symm
          · simp only [Except.ok.injEq] at h
            exact Or.inl h.symm
    · simp only [Except.ok.injEq] at h
      exact Or.inl h.symm

theorem finishLine_spec {fi : Nat} {toks projected : List String} {r : Rec}
    (h : finishLine fi toks projected = .ok r) :
    r.src = fi ∧
      (r.toks = toks.take 9 ++ projected ∨
        r.toks = (toks.take 9 ++ projected).set 3 ".") := by
  unfold finishLine at h
  split at h
  · exact absurd h (by simp)
  · rename_i t2 hfix
    split at h
    · split at h
      · exact absurd h (by simp)
      · simp only [Except.ok.injEq] at h
        have hsrc : r.src = fi := by rw [← h]
        have htoks : r.toks = t2 := by rw [← h]
        rcases fixRefN_spec hfix with h2 | h2
        · exact ⟨hsrc, Or.inl (htoks.trans h2)⟩
        · exact ⟨hsrc, Or.inr (htoks.trans h2)⟩
    · exact absurd h (by simp)

theorem processLine_rec_spec {idxs : List Nat} {rr : Bool} {fi : Nat}
    {toks : List String} {r : Rec}
    (h : processLine idxs rr fi toks = .ok (.rec_ r)) :
    isComment toks = false ∧
      ∃ projected, projectSamples (toks.drop 9) idxs = .ok projected ∧
        ¬ (rr = true ∧ allUnknownOrRef projected = true) ∧
        finishLine fi toks projected = .ok r := by
  unfold processLine at h
  split at h
  · rename_i hcmt
    exact absurd h (by simp)
  · rename_i hcmt
    split at h
    · exact absurd h (by simp)
    · rename_i projected hproj
      split at h
      · exact absurd h (by simp)
      · rename_i hdrop
        split at h
        · exact absurd h (by simp)
        · rename_i r0 hfin
          simp only [Except.ok.injEq, LineRes.rec_.injEq] at h
          refine ⟨by simpa using hcmt, projected, hproj, by simpa using hdrop, ?_⟩
          rw [h] at hfin
          exact hfin

theorem processLine_src {idxs : List Nat} {rr : Bool} {fi : Nat}
    {toks : List String} {r : Rec}
    (h : processLine idxs rr fi toks = .ok (.rec_ r)) : r.src = fi := by
  obtain ⟨_, projected, _, _, hfin⟩ := processLine_rec_spec h
  exact (finishLine_spec hfin).1

theorem writeBodyGo_src {idxs : List Nat} {rr : Bool} {fi : Nat} :
    ∀ (lines : List (List String)) (sk tt : Nat) (out : BodyOut),
      writeBodyGo idxs rr fi lines sk tt = .ok out → ∀ r ∈ out.recs, r.src = fi := by
  intro lines
  induction lines with
  | nil =>
    intro sk tt out h r hr
    simp only [writeBodyGo, Except.ok.injEq] at h
    rw [← h] at hr
    simp at hr
  | cons toks rest ihl =>
    intro sk tt out h r hr
    cases hres : processLine idxs rr fi toks with
    | error e => simp [writeBodyGo, hres] at h
    | ok lr =>
      cases lr with
      | comment =>
        simp only [writeBodyGo, hres] at h
        exact ihl sk tt out h r hr
      | skip =>
        simp only [writeBodyGo, hres] at h
        exact ihl (sk + 1) (tt + 1) out h r hr
      | rec_ r0 =>
        simp only [writeBodyGo, hres] at h
        cases hout : writeBodyGo idxs rr fi rest sk (tt + 1) with
        | error e => rw [hout] at h; simp at h
        | ok out0 =>
          rw [hout] at h
          simp only [Except.ok.injEq] at h
          rw [← h] at hr
          rcases List.mem_cons.mp hr with rfl | hr
          · exact processLine_src hres
          · exact ihl sk (tt + 1) out0 hout r hr

theorem writeVcfBody_src {lines : List (List String)} {hdr : Header} {fi : Nat}
    {rr : Bool} {b : BodyOut} (h : writeVcfBody lines hdr fi rr = .ok b) :
    ∀ r ∈ b.recs, r.src = fi :=
  writeBodyGo_src lines 0 0 b h

/-! ### Claim C1: order preservation and completeness of the merge -/

/-- Headers for the C1 counterexample: one shared sample. -/
def c1H1 : Header := { emptyHeader with samples := ["S1"] }

def c1H2 : Header := { emptyHeader with samples := ["S1"] }

def c1Lines1 : List (List String) :=
  [["chr1", "1", ".", "A", "T", ".", ".", ".", "GT", "0/1"],
   ["chr2", "1", ".", "A", "T", ".", ".", ".", "GT", "0/1"],
   ["chr2", "2", ".", "A", "T", ".", ".", ".", "GT", "0/1"]]

def c1Lines2 : List (List String) :=
  [["chr1", "1", ".", "A", "T", ".", ".", ".", "GT", "1/1"]]

def c1S1 : List Rec :=
  [⟨"chr1", 1, 0, ["chr1", "1", ".", "A", "T", ".", ".", ".", "GT", "0/1"]⟩,
   ⟨"chr2", 1, 0, ["chr2", "1", ".", "A", "T", ".", ".", ".", "GT", "0/1"]⟩,
   ⟨"chr2", 2, 0, ["chr2", "2", ".", "A", "T", ".", ".", ".", "GT", "0/1"]⟩]

def c1S2 : List Rec :=
  [⟨"chr1", 1, 1, ["chr1", "1", ".", "A", "T", ".", ".", ".", "GT", "1/1"]⟩]

/-- Claim C1, as stated, is false: these two sources are individually sorted
by `(chromosome, position)` under text ordering and pass through the full
record-stream pipeline, yet the merged output is not a permutation of the
two streams — the scheduler aborts at the chromosome boundary (source 2 is
already exhausted, the flush pops an empty queue) and the chr2:2 record is
dropped. -/
theorem C1_counterexample :
    writeVcfBody c1Lines1 (combineHeaders c1H1 c1H2).2.1 0 false = .ok ⟨c1S1, 0, 3⟩ ∧
    writeVcfBody c1Lines2 (combineHeaders c1H1 c1H2).2.2 1 false = .ok ⟨c1S2, 0, 1⟩ ∧
    sortedRecs c1S1 = true ∧ sortedRecs c1S2 = true ∧
    ¬ ((mergeMain c1S1 c1S2).1.map Prod.fst).Perm (c1S1 ++ c1S2) := by decide

/-- Claim C1 (amended): for record streams produced by the record-stream
component (`write_vcf_body`, which already applies the remove-ref filter)
that are individually non-decreasing by `(chromosome, position)` under text
ordering, and **provided the scheduler runs to completion without the
boundary-flush underflow failure**, the merged output (i) is non-decreasing
in `(chromosome, position)` with ties broken by source rank at every adjacent
pair except those ending in the record that resumes the loop after a
deliberate chromosome-boundary flush, and (ii) contains exactly the records
of both streams, none dropped and none duplicated. -/
theorem C1_merge_ordered_complete (L1 L2 : List (List String)) (hdr1 hdr2 : Header)
    (rr : Bool) (b1 b2 : BodyOut)
    (hw1 : writeVcfBody L1 hdr1 0 rr = .ok b1)
    (hw2 : writeVcfBody L2 hdr2 1 rr = .ok b2)
    (h1 : sortedRecs b1.recs = true) (h2 : sortedRecs b2.recs = true)
    (hok : (mergeMain b1.recs b2.recs).2 = false) :
    flushOrdered none (mergeMain b1.recs b2.recs).1 = true ∧
    ((mergeMain b1.recs b2.recs).1.map Prod.fst).Perm (b1.recs ++ b2.recs) := by
  have hsrc1 := writeVcfBody_src hw1
  have hsrc2 := writeVcfBody_src hw2
  have h := mergeMain_run b1.recs b2.recs h1 h2 hsrc1 hsrc2
  exact ⟨h.1, h.2 hok⟩

def c1wHdr : Header := { emptyHeader with samples := ["S1"], idxs := [(0, "S1")] }

def c1wLines1 : List (List String) :=
  [["chr1", "1", ".", "A", "T", ".", ".", ".", "GT", "0/1"]]

def c1wLines2 : List (List String) :=
  [["chr1", "2", ".", "C", "G", ".", ".", ".", "GT", "1/1"]]

def c1wB1 : BodyOut :=
  ⟨[⟨"chr1", 1, 0, ["chr1", "1", ".", "A", "T", ".", ".", ".", "GT", "0/1"]⟩], 0, 1⟩

def c1wB2 : BodyOut :=
  ⟨[⟨"chr1", 2, 1, ["chr1", "2", ".", "C", "G", ".", ".", ".", "GT", "1/1"]⟩], 0, 1⟩

/-- Concrete crash-free instantiation of the amended claim C1. -/
theorem C1_merge_ordered_complete_witness :
    (writeVcfBody c1wLines1 c1wHdr 0 false = .ok c1wB1 ∧
      writeVcfBody c1wLines2 c1wHdr 1 false = .ok c1wB2 ∧
      sortedRecs c1wB1.recs = true ∧ sortedRecs c1wB2.recs = true ∧
      (mergeMain c1wB1.recs c1wB2.recs).2 = false) ∧
    flushOrdered none (mergeMain c1wB1.recs c1wB2.recs).1 = true ∧
    ((mergeMain c1wB1.recs c1wB2.recs).1.map Prod.fst).Perm (c1wB1.recs ++ c1wB2.recs) :=
  ⟨⟨by decide, by decide, by decide, by decide, by decide⟩,
    C1_merge_ordered_complete c1wLines1 c1wLines2 c1wHdr c1wHdr false c1wB1 c1wB2
      (by decide) (by decide) (by decide) (by decide) (by decide)⟩

/-! ### Claim C2: stream exhaustion is never a failure -/

def c2S1 : List Rec :=
  [⟨"chr1", 100, 0, ["chr1", "100", ".", "A", "T", ".", ".", ".", "GT", "0/1"]⟩,
   ⟨"chr2", 50, 0, ["chr2", "50", ".", "A", "T", ".", ".", ".", "GT", "0/1"]⟩]

def c2S2 : List Rec :=
  [⟨"chr1", 100, 1, ["chr1", "100", ".", "A", "T", ".", ".", ".", "GT", "1/1"]⟩]

/-- Claim C2 is contradicted by the code: these finite, individually sorted,
correctly ranked streams reach a chromosome-boundary event (chr1 to chr2)
while stream 2 is exhausted and the queue holds only the just-popped record;
the unguarded second `heapq.heappop` at source line 137 then pops an empty
queue and the merge aborts with `IndexError` instead of treating exhaustion
as "no further contribution". -/
theorem C2_boundary_crash :
    sortedRecs c2S1 = true ∧ sortedRecs c2S2 = true ∧
    (∀ r ∈ c2S1, r.src = 0) ∧ (∀ r ∈ c2S2, r.src = 1) ∧
    (mergeMain c2S1 c2S2).2 = true := by decide

/-! ### Claim C3: header sample intersection -/

theorem enumFrom_filter_map_snd (q : String → Bool) :
    ∀ (n : Nat) (l : List String),
      ((List.enumFrom n l).filter (fun p => q p.2)).map Prod.snd = l.filter q := by
  intro n l
  induction l generalizing n with
  | nil => rfl
  | cons a t ih =>
    simp only [List.enumFrom, List.filter_cons]
    by_cases hq : q a = true
    · simp [hq, ih]
    · simp [hq, ih]

/-- Claim C3: the merged header's sample list is exactly the ordered
subsequence of header 1's samples whose names also occur in header 2's
samples, and — under the data-model invariant that a header's sample list has
no duplicates — its length is at most the minimum of the two sample-list
lengths. -/
theorem C3_sample_intersection (h1 h2 : Header)
    (hnd1 : h1.samples.Nodup) :
    (combineHeaders h1 h2).1.samples =
      h1.samples.filter (fun s => h2.samples.contains s) ∧
    (combineHeaders h1 h2).1.samples.length ≤
      min h1.samples.length h2.samples.length := by
  have heq : (combineHeaders h1 h2).1.samples =
      h1.samples.filter (fun s => h2.samples.contains s) := by
    show ((h1.samples.enum).filter (fun p => h2.samples.contains p.2)).map Prod.snd = _
    exact enumFrom_filter_map_snd _ 0 h1.samples
  refine ⟨heq, ?_⟩
  rw [heq]
  refine le_min (List.length_filter_le _ _) ?_
  have hndf : (h1.samples.filter (fun s => h2.samples.contains s)).Nodup :=
    hnd1.filter _
  have hsub : (h1.samples.filter (fun s => h2.samples.contains s)) ⊆ h2.samples := by
    intro x hx
    have := List.of_mem_filter hx
    simpa using this
  exact (hndf.subperm hsub).length_le

def c3H1 : Header := { emptyHeader with samples := ["S1", "S2", "S3"] }

def c3H2 : Header := { emptyHeader with samples := ["S2", "S3"] }

/-- Concrete instantiation of claim C3. -/
theorem C3_sample_intersection_witness :
    c3H1.samples.Nodup ∧
    ((combineHeaders c3H1 c3H2).1.samples =
      c3H1.samples.filter (fun s => c3H2.samples.contains s) ∧
    (combineHeaders c3H1 c3H2).1.samples.length ≤
      min c3H1.samples.length c3H2.samples.length) :=
  ⟨by decide, C3_sample_intersection c3H1 c3H2 (by decide)⟩

/-! ### Claim C4: projection correctness and round trip -/

theorem projectSamples_spec {samples : List String} :
    ∀ {idxs : List Nat} {ps : List String},
      projectSamples samples idxs = .ok ps →
      ps.length = idxs.length ∧ ∀ (i j : Nat), idxs[i]? = some j → ps[i]? = samples[j]? := by
  intro idxs
  induction idxs with
  | nil =>
    intro ps h
    simp only [projectSamples, Except.ok.injEq] at h
    rw [← h]
    exact ⟨rfl, by intro i j hj; simp at hj⟩
  | cons k ks ih =>
    intro ps h
    unfold projectSamples at h
    cases hk : samples[k]? with
    | none => rw [hk] at h; exact absurd h (by simp)
    | some sv =>
      rw [hk] at h
      cases hrec : projectSamples samples ks with
      | error e => rw [hrec] at h; exact absurd h (by simp)
      | ok rest =>
        rw [hrec] at h
        simp only [Except.ok.injEq] at h
        obtain ⟨hlen, hspec⟩ := ih hrec
        rw [← h]
        refine ⟨by simp [hlen], ?_⟩
        intro i j hj
        cases i with
        | zero =>
          simp only [List.getElem?_cons_zero, Option.some.injEq] at hj
          rw [← hj]
          simpa using hk.symm
        | succ i =>
          simp only [List.getElem?_cons_succ] at hj ⊢
          exact hspec i j hj

theorem drop_set_of_lt (l : List String) (n : Nat) (v : String) (m : Nat) (h : n < m) :
    (l.set n v).drop m = l.drop m := by
  apply List.ext_getElem?
  intro i
  rw [List.getElem?_drop, List.getElem?_drop]
  rw [List.getElem?_set_ne (by omega)]

/-- For a yielded record, the trailing columns (after the nine fixed ones) are
exactly the projected sample columns. -/
theorem processLine_drop9 {idxs : List Nat} {rr : Bool} {fi : Nat}
    {toks : List String} {r : Rec}
    (h : processLine idxs rr fi toks = .ok (.rec_ r)) :
    ∃ projected, projectSamples (toks.drop 9) idxs = .ok projected ∧
      r.toks.drop 9 = projected := by
  obtain ⟨_, projected, hproj, _, hfin⟩ := processLine_rec_spec h
  refine ⟨projected, hproj, ?_⟩
  have hdrop : (toks.take 9 ++ projected).drop 9 = projected := by
    by_cases hlen : 9 ≤ toks.length
    · have h9 : (toks.take 9).length = 9 := by
        rw [List.length_take]
        omega
      have hdl := List.drop_left (toks.take 9) projected
      rw [h9] at hdl
      exact hdl
    · have hsamp : toks.drop 9 = [] := List.drop_eq_nil_of_le (by omega)
      cases idxs with
      | nil =>
        simp only [projectSamples, Except.ok.injEq] at hproj
        rw [← hproj, List.append_nil]
        apply List.drop_eq_nil_of_le
        rw [List.length_take]
        omega
      | cons k ks =>
        rw [hsamp] at hproj
        unfold projectSamples at hproj
        simp at hproj
  rcases (finishLine_spec hfin).2 with ht | ht
  · rw [ht, hdrop]
  · rw [ht, drop_set_of_lt _ 3 _ 9 (by omega), hdrop]

/-- Claim C4: sample column `i` of an emitted record equals the source row's
sample column at `projection[i]`, and consequently writing each projected
value back at its projection index reproduces the source's sample values at
the projected positions (round trip). -/
theorem C4_projection_roundtrip (idxs : List Nat) (rr : Bool) (fi : Nat)
    (toks : List String) (r : Rec)
    (h : processLine idxs rr fi toks = .ok (.rec_ r)) :
    (∀ (i j : Nat), idxs[i]? = some j → (r.toks.drop 9)[i]? = (toks.drop 9)[j]?) ∧
    (∀ (i j : Nat) (v : String), idxs[i]? = some j → (r.toks.drop 9)[i]? = some v →
      (toks.drop 9)[j]? = some v) := by
  obtain ⟨projected, hproj, hdrop⟩ := processLine_drop9 h
  obtain ⟨_, hspec⟩ := projectSamples_spec hproj
  constructor
  · intro i j hj
    rw [hdrop]
    exact hspec i j hj
  · intro i j v hj hv
    rw [hdrop] at hv
    rw [← (hspec i j hj), hv]

def c4Toks : List String :=
  ["chr1", "100", ".", "A", "T", ".", ".", ".", "GT", "0/0", "0/1", "./."]

def c4Rec : Rec :=
  ⟨"chr1", 100, 0, ["chr1", "100", ".", "A", "T", ".", ".", ".", "GT", "0/1", "./."]⟩

/-- Concrete instantiation of claim C4 at the spec's worked example (sample
projection `[1, 2]`). -/
theorem C4_projection_roundtrip_witness :
    processLine [1, 2] false 0 c4Toks = .ok (.rec_ c4Rec) ∧
    ((∀ (i j : Nat), ([1, 2] : List Nat)[i]? = some j →
        (c4Rec.toks.drop 9)[i]? = (c4Toks.drop 9)[j]?) ∧
     (∀ (i j : Nat) (v : String), ([1, 2] : List Nat)[i]? = some j →
        (c4Rec.toks.drop 9)[i]? = some v → (c4Toks.drop 9)[j]? = some v)) :=
  ⟨by decide, C4_projection_roundtrip [1, 2] false 0 c4Toks c4Rec (by decide)⟩

/-! ### Claim C5: definition-conflict tie-break -/

theorem odGet_odSet_self (m : List (String × String)) (k v : String) :
    odGet (odSet m k v) k = some v := by
  induction m with
  | nil => simp [odSet, odGet]
  | cons kv rest ih =>
    obtain ⟨k', v'⟩ := kv
    by_cases hk : k' = k
    · simp [odSet, odGet, hk]
    · simp only [odSet, if_neg hk, odGet]
      exact ih

theorem odGet_odSet_ne (m : List (String × String)) (k v k' : String) (h : k ≠ k') :
    odGet (odSet m k v) k' = odGet m k' := by
  induction m with
  | nil => simp [odSet, odGet, h]
  | cons kv rest ih =>
    obtain ⟨k0, v0⟩ := kv
    by_cases hk : k0 = k
    · subst hk
      simp only [odSet, if_pos rfl, odGet]
      rw [if_neg h, if_neg h]
    · simp only [odSet, if_neg hk, odGet]
      by_cases hk' : k0 = k'
      · rw [if_pos hk', if_pos hk']
      · rw [if_neg hk', if_neg hk']
        exact ih

/-- One step of the per-category merge fold of `combine_headers`. -/
def combineStep (acc : List (String × String)) (kv : String × String) :
    List (String × String) :=
  match odGet acc kv.1 with
  | some v =>
    if v ≠ kv.2 ∧ floatTyped kv.2 ∧ ¬ floatTyped v = true then odSet acc kv.1 kv.2
    else acc
  | none => odSet acc kv.1 kv.2

theorem combineStep_get_ne (acc : List (String × String)) (kv : String × String)
    (id : String) (h : kv.1 ≠ id) : odGet (combineStep acc kv) id = odGet acc id := by
  unfold combineStep
  cases hv : odGet acc kv.1 with
  | none =>
    simp only [hv]
    exact odGet_odSet_ne acc kv.1 kv.2 id h
  | some v =>
    simp only [hv]
    split
    · exact odGet_odSet_ne acc kv.1 kv.2 id h
    · rfl

theorem foldl_combineStep_get_ne (id : String) :
    ∀ (m2 acc : List (String × String)), (∀ kv ∈ m2, kv.1 ≠ id) →
      odGet (m2.foldl combineStep acc) id = odGet acc id := by
  intro m2
  induction m2 with
  | nil => intro acc _; rfl
  | cons kv rest ih =>
    intro acc hne
    simp only [List.foldl_cons]
    rw [ih (combineStep acc kv) fun kv' h => hne kv' (List.mem_cons_of_mem kv h)]
    exact combineStep_get_ne acc kv id (hne kv (List.mem_cons_self kv rest))

theorem combineMap_conflict {m1 m2 : List (String × String)} {id l1 l2 : String}
    (hnd : (m2.map Prod.fst).Nodup) (hm : (id, l2) ∈ m2)
    (hg : odGet m1 id = some l1) :
    odGet (combineMap m1 m2) id =
      some (if l1 ≠ l2 ∧ floatTyped l2 ∧ ¬ floatTyped l1 = true then l2 else l1) := by
  show odGet (m2.foldl combineStep m1) id = _
  induction m2 generalizing m1 with
  | nil => simp at hm
  | cons kv rest ih =>
    simp only [List.map_cons, List.nodup_cons] at hnd
    rcases List.mem_cons.mp hm with heq | hmem
    · subst heq
      simp only [List.foldl_cons]
      have hstep : odGet (combineStep m1 (id, l2)) id =
          some (if l1 ≠ l2 ∧ floatTyped l2 ∧ ¬ floatTyped l1 = true then l2 else l1) := by
        unfold combineStep
        have hg' : odGet m1 (id, l2).1 = some l1 := hg
        rw [hg']
        dsimp only
        split_ifs with hcond
        · exact odGet_odSet_self m1 id l2
        · exact hg
      rw [foldl_combineStep_get_ne id rest (combineStep m1 (id, l2)) ?_, hstep]
      intro kv' hkv'
      intro heq
      apply hnd.1
      have hmm : kv'.1 ∈ List.map Prod.fst rest := List.mem_map_of_mem Prod.fst hkv'
      rw [heq] at hmm
      exact hmm
    · have hne : kv.1 ≠ id := by
        intro heq
        apply hnd.1
        have : (id, l2).1 ∈ List.map Prod.fst rest := List.mem_map_of_mem Prod.fst hmem
        rw [heq]
        exact this
      simp only [List.foldl_cons]
      exact ih hnd.2 hmem (by rw [combineStep_get_ne m1 kv id hne]; exact hg)

/-- The four recognized categories of header definition maps. -/
inductive HCat where
  | infos : HCat
  | formats : HCat
  | contigs : HCat
  | filters : HCat

/-- Category projection of a header. -/
def Header.catOf (h : Header) : HCat → List (String × String)
  | .infos => h.infos
  | .formats => h.formats
  | .contigs => h.contigs
  | .filters => h.filters

theorem catOf_combine (h1 h2 : Header) (c : HCat) :
    (combineHeaders h1 h2).1.catOf c = combineMap (h1.catOf c) (h2.catOf c) := by
  cases c <;> rfl

/-- Claim C5: when the two headers give textually different definition lines
for the same id in the same category and exactly one of them declares a
floating-point value type (contains `=Float`, the code's test), the combined
header keeps the floating-point-typed line, whichever argument it came
from. -/
theorem C5_float_tiebreak (h1 h2 : Header) (c : HCat) (id l1 l2 : String)
    (hnd : ((h2.catOf c).map Prod.fst).Nodup)
    (hm : (id, l2) ∈ h2.catOf c)
    (hg : odGet (h1.catOf c) id = some l1)
    (hne : l1 ≠ l2)
    (hx : floatTyped l1 = !floatTyped l2) :
    odGet ((combineHeaders h1 h2).1.catOf c) id =
      some (if floatTyped l1 then l1 else l2) := by
  rw [catOf_combine, combineMap_conflict hnd hm hg]
  cases hf1 : floatTyped l1 with
  | false =>
    rw [hf1] at hx
    have hf2 : floatTyped l2 = true := by
      cases hq : floatTyped l2
      · rw [hq] at hx; simp at hx
      · rfl
    simp [hne, hf1, hf2]
  | true =>
    rw [hf1] at hx
    have hf2 : floatTyped l2 = false := by
      cases hq : floatTyped l2
      · rfl
      · rw [hq] at hx; simp at hx
    simp [hne, hf1, hf2]

def c5H1 : Header :=
  { emptyHeader with infos := [("DP", "##INFO=<ID=DP,Number=1,Type=Integer>")] }

def c5H2 : Header :=
  { emptyHeader with infos := [("DP", "##INFO=<ID=DP,Number=1,Type=Float>")] }

/-- Concrete instantiation of claim C5: header 2 carries the `Float`-typed
line and wins the conflict. -/
theorem C5_float_tiebreak_witness :
    (((c5H2.catOf .infos).map Prod.fst).Nodup ∧
      ("DP", "##INFO=<ID=DP,Number=1,Type=Float>") ∈ c5H2.catOf .infos ∧
      odGet (c5H1.catOf .infos) "DP" = some "##INFO=<ID=DP,Number=1,Type=Integer>" ∧
      ("##INFO=<ID=DP,Number=1,Type=Integer>" : String) ≠
        "##INFO=<ID=DP,Number=1,Type=Float>" ∧
      floatTyped "##INFO=<ID=DP,Number=1,Type=Integer>" =
        (!floatTyped "##INFO=<ID=DP,Number=1,Type=Float>")) ∧
    odGet ((combineHeaders c5H1 c5H2).1.catOf .infos) "DP" =
      some (if floatTyped "##INFO=<ID=DP,Number=1,Type=Integer>" then
        "##INFO=<ID=DP,Number=1,Type=Integer>" else "##INFO=<ID=DP,Number=1,Type=Float>") :=
  ⟨⟨by decide, by decide, by decide, by decide, by decide⟩,
    C5_float_tiebreak c5H1 c5H2 .infos "DP" "##INFO=<ID=DP,Number=1,Type=Integer>"
      "##INFO=<ID=DP,Number=1,Type=Float>" (by decide) (by decide) (by decide)
      (by decide) (by decide)⟩

/-! ### Claim C6: the remove-ref filter -/

theorem processLine_comment_elim {idxs : List Nat} {rr : Bool} {fi : Nat}
    {toks : List String} (h : processLine idxs rr fi toks = .ok .comment) :
    isComment toks = true := by
  unfold processLine at h
  split at h
  · rename_i hc; simpa using hc
  · split at h
    · exact absurd h (by simp)
    · split at h
      · exact absurd h (by simp)
      · split at h
        · exact absurd h (by simp)
        · exact absurd h (by simp)

theorem processLine_comment_intro {idxs : List Nat} {rr : Bool} {fi : Nat}
    {toks : List String} (h : isComment toks = true) :
    processLine idxs rr fi toks = .ok .comment := by
  unfold processLine
  rw [if_pos h]

theorem processLine_false_not_skip {idxs : List Nat} {fi : Nat} {toks : List String} :
    processLine idxs false fi toks ≠ .ok .skip := by
  unfold processLine
  split
  · simp
  · split
    · simp
    · split
      · rename_i hcond
        exact absurd hcond.1 (by simp)
      · split
        · simp
        · simp

theorem processLine_true_skip {idxs : List Nat} {fi : Nat} {toks projected : List String}
    (hc : isComment toks = false)
    (hproj : projectSamples (toks.drop 9) idxs = .ok projected)
    (hall : allUnknownOrRef projected = true) :
    processLine idxs true fi toks = .ok .skip := by
  unfold processLine
  rw [if_neg (by simp [hc]), hproj]
  dsimp only
  rw [if_pos ⟨rfl, hall⟩]

theorem processLine_true_rec {idxs : List Nat} {fi : Nat} {toks projected : List String}
    {r : Rec} (hc : isComment toks = false)
    (hproj : projectSamples (toks.drop 9) idxs = .ok projected)
    (hall : allUnknownOrRef projected = false)
    (hfin : finishLine fi toks projected = .ok r) :
    processLine idxs true fi toks = .ok (.rec_ r) := by
  unfold processLine
  rw [if_neg (by simp [hc]), hproj]
  dsimp only
  rw [if_neg (by simp [hall]), hfin]

theorem writeBodyGo_removeRef {idxs : List Nat} {fi : Nat} :
    ∀ (lines : List (List String)) (sk tt sk2 : Nat) (out : BodyOut),
      writeBodyGo idxs false fi lines sk tt = .ok out →
      writeBodyGo idxs true fi lines sk2 tt = .ok
        ⟨out.recs.filter (fun r => !allUnknownOrRef (r.toks.drop 9)),
         sk2 + (out.recs.filter (fun r => allUnknownOrRef (r.toks.drop 9))).length,
         out.tot⟩ := by
  intro lines
  induction lines with
  | nil =>
    intro sk tt sk2 out h
    simp only [writeBodyGo, Except.ok.injEq] at h
    rw [← h]
    simp [writeBodyGo]
  | cons toks rest ihl =>
    intro sk tt sk2 out h
    cases hres : processLine idxs false fi toks with
    | error e => simp [writeBodyGo, hres] at h
    | ok lr =>
      cases lr with
      | comment =>
        simp only [writeBodyGo, hres] at h
        have hc := processLine_comment_elim hres
        simp only [writeBodyGo,
          @processLine_comment_intro idxs true fi _ hc]
        exact ihl sk tt sk2 out h
      | skip => exact absurd hres processLine_false_not_skip
      | rec_ r =>
        simp only [writeBodyGo, hres] at h
        cases hout : writeBodyGo idxs false fi rest sk (tt + 1) with
        | error e => rw [hout] at h; simp at h
        | ok out0 =>
          rw [hout] at h
          simp only [Except.ok.injEq] at h
          obtain ⟨hc, projected0, hproj0, _, hfin0⟩ := processLine_rec_spec hres
          obtain ⟨projected, hproj, hdrop⟩ := processLine_drop9 hres
          have hpe : projected0 = projected := by
            rw [hproj0] at hproj
            simpa using hproj
          subst hpe
          have hrec := ihl sk (tt + 1) (sk2 + 1) out0 hout
          have hrec2 := ihl sk (tt + 1) sk2 out0 hout
          cases hP : allUnknownOrRef projected0 with
          | true =>
            have hskip := @processLine_true_skip _ fi _ _ hc hproj0 hP
            simp only [writeBodyGo, hskip]
            rw [hrec, ← h]
            have hPr : allUnknownOrRef (r.toks.drop 9) = true := by rw [hdrop]; exact hP
            have hrecs : (r :: out0.recs).filter (fun x => !allUnknownOrRef (x.toks.drop 9))
                = out0.recs.filter (fun x => !allUnknownOrRef (x.toks.drop 9)) := by
              simp [List.filter_cons, hPr]
            have hlen : ((r :: out0.recs).filter
                  (fun x => allUnknownOrRef (x.toks.drop 9))).length
                = (out0.recs.filter (fun x => allUnknownOrRef (x.toks.drop 9))).length + 1 := by
              simp [List.filter_cons, hPr]
            rw [hrecs, hlen,
              show sk2 + ((out0.recs.filter
                  (fun x => allUnknownOrRef (x.toks.drop 9))).length + 1)
                = sk2 + 1 + (out0.recs.filter
                  (fun x => allUnknownOrRef (x.toks.drop 9))).length from by omega]
          | false =>
            have hstep := processLine_true_rec hc hproj0 hP hfin0
            simp only [writeBodyGo, hstep]
            rw [hrec2, ← h]
            have hPr : allUnknownOrRef (r.toks.drop 9) = false := by rw [hdrop]; exact hP
            have hrecs : (r :: out0.recs).filter (fun x => !allUnknownOrRef (x.toks.drop 9))
                = r :: out0.recs.filter (fun x => !allUnknownOrRef (x.toks.drop 9)) := by
              simp [List.filter_cons, hPr]
            have hlen : ((r :: out0.recs).filter
                  (fun x => allUnknownOrRef (x.toks.drop 9))).length
                = (out0.recs.filter (fun x => allUnknownOrRef (x.toks.drop 9))).length := by
              simp [List.filter_cons, hPr]
            rw [hrecs, hlen]

/-- Claim C6: with the remove-ref flag set, a record is dropped iff every
projected sample's leading genotype token (the text before the first `:`) is
one of `.`, `./.`, `0/0`, `.|.`, `0|0`; all other records are kept in their
original relative order, and each drop increments the per-source skipped
counter (here stated against the same source's remove-ref-off run, whose
record list the filtered run reproduces exactly). -/
theorem C6_removeRef_filter (lines : List (List String)) (hdr : Header) (fi : Nat)
    (b : BodyOut) (h : writeVcfBody lines hdr fi false = .ok b) :
    writeVcfBody lines hdr fi true = .ok
      ⟨b.recs.filter (fun r => !allUnknownOrRef (r.toks.drop 9)),
       (b.recs.filter (fun r => allUnknownOrRef (r.toks.drop 9))).length,
       b.tot⟩ := by
  have := writeBodyGo_removeRef lines 0 0 0 b h
  simpa using this

def c6Hdr : Header :=
  { emptyHeader with samples := ["S1", "S2"], idxs := [(0, "S1"), (1, "S2")] }

def c6Lines : List (List String) :=
  [["chr1", "1", ".", "A", "T", ".", ".", ".", "GT", "0/0", "./."],
   ["chr1", "2", ".", "A", "T", ".", ".", ".", "GT", "0/1", "0/0"],
   ["chr1", "3", ".", "A", "T", ".", ".", ".", "GT", ".|.", "0|0"]]

def c6B : BodyOut :=
  ⟨[⟨"chr1", 1, 0, ["chr1", "1", ".", "A", "T", ".", ".", ".", "GT", "0/0", "./."]⟩,
    ⟨"chr1", 2, 0, ["chr1", "2", ".", "A", "T", ".", ".", ".", "GT", "0/1", "0/0"]⟩,
    ⟨"chr1", 3, 0, ["chr1", "3", ".", "A", "T", ".", ".", ".", "GT", ".|.", "0|0"]⟩], 0, 3⟩

/-- Concrete instantiation of claim C6: of three records, the all-reference
first and third are dropped and counted, the informative second survives. -/
theorem C6_removeRef_filter_witness :
    writeVcfBody c6Lines c6Hdr 0 false = .ok c6B ∧
    writeVcfBody c6Lines c6Hdr 0 true = .ok
      ⟨c6B.recs.filter (fun r => !allUnknownOrRef (r.toks.drop 9)),
       (c6B.recs.filter (fun r => allUnknownOrRef (r.toks.drop 9))).length,
       c6B.tot⟩ :=
  ⟨by decide, C6_removeRef_filter c6Lines c6Hdr 0 c6B (by decide)⟩

/-! ### Claim C7: short data lines -/

theorem projectSamples_oob {samples : List String} :
    ∀ {idxs : List Nat} {j : Nat}, j ∈ idxs → samples.length ≤ j →
      projectSamples samples idxs = .error () := by
  intro idxs
  induction idxs with
  | nil => intro j hj _; simp at hj
  | cons k ks ih =>
    intro j hj hge
    unfold projectSamples
    rcases List.mem_cons.mp hj with rfl | hj
    · rw [List.getElem?_eq_none hge]
    · cases hk : samples[k]? with
      | none => rfl
      | some sv => rw [ih hj hge]

theorem processLine_oob {idxs : List Nat} {rr : Bool} {fi : Nat} {toks : List String}
    {j : Nat} (hj : j ∈ idxs) (hge : (toks.drop 9).length ≤ j)
    (hc : isComment toks = false) : processLine idxs rr fi toks = .error () := by
  unfold processLine
  rw [if_neg (by simp [hc]), projectSamples_oob hj hge]

/-- Helper: one fatal line anywhere in the input aborts the whole body pass. -/
theorem writeBodyGo_fatal {idxs : List Nat} {rr : Bool} {fi : Nat} {toks : List String}
    (hbad : processLine idxs rr fi toks = .error ()) :
    ∀ (lines : List (List String)) (sk tt : Nat), toks ∈ lines →
      writeBodyGo idxs rr fi lines sk tt = .error () := by
  intro lines
  induction lines with
  | nil => intro sk tt hmem; simp at hmem
  | cons t rest ihl =>
    intro sk tt hmem
    rcases List.mem_cons.mp hmem with rfl | hmem
    · unfold writeBodyGo
      rw [hbad]
    · unfold writeBodyGo
      cases hres : processLine idxs rr fi t with
      | error e => cases e; rfl
      | ok lr =>
        cases lr with
        | comment => exact ihl sk tt hmem
        | skip => exact ihl (sk + 1) (tt + 1) hmem
        | rec_ r => rw [ihl sk (tt + 1) hmem]

/-- Claim C7 (amended): a short data line is fatal for its source's stream
whenever it lacks a column that the sample projection selects — whenever some
index stored in the source header's projection is at or beyond the number of
sample columns the row actually has; the stream then produces no record list
at all.  Being short relative to the header's sample count is not by itself
fatal: a row covering every projected index can be accepted,
as `C7_counterexample` shows, which refutes the claim as originally stated.
This out-of-range condition is sufficient, not necessary — rows short enough
to hit the fixed-field accesses (the REF repair's `toks[3]`, the position
parse of `toks[1]`) abort independently of the sample count. -/
theorem C7_short_row_fatal (lines : List (List String)) (hdr : Header) (fi : Nat)
    (rr : Bool) (toks : List String) (hmem : toks ∈ lines)
    (hc : isComment toks = false) (j : Nat) (hj : j ∈ hdr.idxs.map Prod.fst)
    (hge : (toks.drop 9).length ≤ j) :
    writeVcfBody lines hdr fi rr = .error () := by
  unfold writeVcfBody
  exact writeBodyGo_fatal (processLine_oob hj hge hc) lines 0 0 hmem

def c7H1 : Header := { emptyHeader with samples := ["S1", "S2", "S3", "S4", "S5"] }

def c7H2 : Header := { emptyHeader with samples := ["S1", "S2"] }

def c7Line : List String :=
  ["chr1", "5", ".", "A", "T", ".", ".", ".", "GT", "0/1", "1/1", "0/0"]

/-- Claim C7, as stated, is false: this data line has fewer columns than the
source header's sample count implies (12 < 9 + 5), yet the stream does not
fail — the projection built by `combine_headers` only selects columns 0 and
1, both present, so a record is yielded from the short row. -/
theorem C7_counterexample :
    c7Line.length < 9 + c7H1.samples.length ∧
    writeVcfBody [c7Line] (combineHeaders c7H1 c7H2).2.1 0 false =
      .ok ⟨[⟨"chr1", 5, 0,
        ["chr1", "5", ".", "A", "T", ".", ".", ".", "GT", "0/1", "1/1"]⟩], 0, 1⟩ := by
  decide

def c7wHdr : Header :=
  { emptyHeader with samples := ["S1", "S2"], idxs := [(0, "S1"), (1, "S2")] }

def c7wLine : List String := ["chr1", "5", ".", "A", "T", ".", ".", ".", "GT", "0/1"]

/-- Concrete instantiation of amended claim C7: the projection needs sample
column 1 but the row has a single sample column, so the stream is fatal. -/
theorem C7_short_row_fatal_witness :
    (c7wLine ∈ [c7wLine] ∧ isComment c7wLine = false ∧
      (1 : Nat) ∈ c7wHdr.idxs.map Prod.fst ∧ (c7wLine.drop 9).length ≤ 1) ∧
    writeVcfBody [c7wLine] c7wHdr 0 false = .error () :=
  ⟨⟨by decide, by decide, by decide, by decide⟩,
    C7_short_row_fatal [c7wLine] c7wHdr 0 false c7wLine (by decide) (by decide) 1
      (by decide) (by decide)⟩

/-! ### Claim C8: combine_headers mutates its arguments via idxs only -/

/-- The `h1_idxs` projection of `combine_headers` (source line 50). -/
def h1Proj (h1 h2 : Header) : List (Nat × String) :=
  (h1.samples.enum).filter (fun p => h2.samples.contains p.2)

/-- The `h2_idxs` projection of `combine_headers` (source line 51). -/
def h2Proj (h1 h2 : Header) : List (Nat × String) :=
  (h1Proj h1 h2).map (fun p => (listIndex p.2 h2.samples, p.2))

/-- Claim C8: `combine_headers` hands back its two argument headers changed
in exactly one way — each receives its sample projection under `idxs` —
while their definition maps, samples and other lines are untouched; and the
record stream reads the projection from the source header it is given (its
output depends on the header only through `idxs`), not from the merged
header (whose `idxs` is empty). -/
theorem C8_idxs_mutation (h1 h2 : Header) :
    (combineHeaders h1 h2).2.1 = { h1 with idxs := h1Proj h1 h2 } ∧
    (combineHeaders h1 h2).2.2 = { h2 with idxs := h2Proj h1 h2 } ∧
    (combineHeaders h1 h2).1.idxs = [] ∧
    ∀ (L : List (List String)) (fi : Nat) (rr : Bool) (hdr hdr' : Header),
      hdr.idxs = hdr'.idxs → writeVcfBody L hdr fi rr = writeVcfBody L hdr' fi rr := by
  refine ⟨rfl, rfl, rfl, ?_⟩
  intro L fi rr hdr hdr' hidx
  unfold writeVcfBody
  rw [hidx]

def c8H1 : Header :=
  { emptyHeader with
      samples := ["A", "B"]
      formats := [("GT", "##FORMAT=<ID=GT,Type=String>")]
      other := ["##x"] }

def c8H2 : Header := { emptyHeader with samples := ["B"] }

/-- Concrete instantiation of claim C8. -/
theorem C8_idxs_mutation_witness :
    ((combineHeaders c8H1 c8H2).2.1 = { c8H1 with idxs := h1Proj c8H1 c8H2 } ∧
    (combineHeaders c8H1 c8H2).2.2 = { c8H2 with idxs := h2Proj c8H1 c8H2 } ∧
    (combineHeaders c8H1 c8H2).1.idxs = [] ∧
    ∀ (L : List (List String)) (fi : Nat) (rr : Bool) (hdr hdr' : Header),
      hdr.idxs = hdr'.idxs → writeVcfBody L hdr fi rr = writeVcfBody L hdr' fi rr) ∧
    writeVcfBody [["chr1", "1", ".", "A", "T", ".", ".", ".", "GT", "0/1", "1/1"]]
        { emptyHeader with idxs := [(0, "B")] } 0 false =
      writeVcfBody [["chr1", "1", ".", "A", "T", ".", ".", ".", "GT", "0/1", "1/1"]]
        (combineHeaders c8H1 c8H2).2.2 0 false :=
  ⟨C8_idxs_mutation c8H1 c8H2,
    (C8_idxs_mutation c8H1 c8H2).2.2.2
      [["chr1", "1", ".", "A", "T", ".", ".", ".", "GT", "0/1", "1/1"]] 0 false
      { emptyHeader with idxs := [(0, "B")] } (combineHeaders c8H1 c8H2).2.2 (by decide)⟩

/-! ### Claim C9: empty merged sample list plus remove-ref drops everything -/

/-- The number of non-header lines seen by `write_vcf_body` (its `tot`). -/
def countNC (lines : List (List String)) : Nat :=
  (lines.filter (fun t => !isComment t)).length

theorem writeBodyGo_all_skip (fi : Nat) :
    ∀ (lines : List (List String)) (sk tt : Nat),
      writeBodyGo [] true fi lines sk tt =
        .ok ⟨[], sk + countNC lines, tt + countNC lines⟩ := by
  intro lines
  induction lines with
  | nil => intro sk tt; simp [writeBodyGo, countNC]
  | cons toks rest ih =>
    intro sk tt
    cases hc : isComment toks with
    | true =>
      have hcnt : countNC (toks :: rest) = countNC rest := by
        simp [countNC, List.filter_cons, hc]
      simp only [writeBodyGo,
        @processLine_comment_intro [] true fi _ hc]
      rw [ih sk tt, hcnt]
    | false =>
      have hskip : processLine [] true fi toks = .ok .skip :=
        processLine_true_skip hc (by rfl) (by rfl)
      have hcnt : countNC (toks :: rest) = countNC rest + 1 := by
        simp [countNC, List.filter_cons, hc]
      simp only [writeBodyGo, hskip]
      rw [ih (sk + 1) (tt + 1), hcnt]
      have h1 : sk + 1 + countNC rest = sk + (countNC rest + 1) := by omega
      have h2 : tt + 1 + countNC rest = tt + (countNC rest + 1) := by omega
      rw [h1, h2]

/-- Claim C9: when the two headers share no sample name, the merged sample
list is empty, both projections are empty, and with remove-ref set every
data record of both sources is dropped (the all-uninformative test is
vacuously true over zero projected columns): both streams yield no records
and count every non-header line as skipped. -/
theorem C9_empty_projection_drops_all (h1 h2 : Header)
    (hdisj : ∀ s ∈ h1.samples, s ∉ h2.samples) :
    (combineHeaders h1 h2).1.samples = [] ∧
    ∀ (L : List (List String)) (fi : Nat),
      writeVcfBody L (combineHeaders h1 h2).2.1 fi true =
        .ok ⟨[], countNC L, countNC L⟩ ∧
      writeVcfBody L (combineHeaders h1 h2).2.2 fi true =
        .ok ⟨[], countNC L, countNC L⟩ := by
  have hfilt : (h1.samples.enum).filter (fun p => h2.samples.contains p.2) = [] := by
    rw [List.filter_eq_nil_iff]
    intro p hp
    have hmem : p.2 ∈ h1.samples := by
      have := List.mem_map_of_mem Prod.snd hp
      rw [List.enum_map_snd] at this
      exact this
    simp only [Bool.not_eq_true]
    rw [← Bool.not_eq_true]
    intro hcon
    exact hdisj p.2 hmem (by simpa using hcon)
  constructor
  · show ((h1.samples.enum).filter (fun p => h2.samples.contains p.2)).map Prod.snd = []
    rw [hfilt]
    rfl
  · intro L fi
    constructor
    · show writeBodyGo ((combineHeaders h1 h2).2.1.idxs.map Prod.fst) true fi L 0 0 = _
      have : (combineHeaders h1 h2).2.1.idxs = [] := hfilt
      rw [this]
      have := writeBodyGo_all_skip fi L 0 0
      simpa using this
    · show writeBodyGo ((combineHeaders h1 h2).2.2.idxs.map Prod.fst) true fi L 0 0 = _
      have : (combineHeaders h1 h2).2.2.idxs = [] := by
        show ((h1.samples.enum).filter (fun p => h2.samples.contains p.2)).map _ = []
        rw [hfilt]
        rfl
      rw [this]
      have := writeBodyGo_all_skip fi L 0 0
      simpa using this

def c9H1 : Header := { emptyHeader with samples := ["A", "B"] }

def c9H2 : Header := { emptyHeader with samples := ["C"] }

def c9Lines : List (List String) :=
  [["chr1", "1", ".", "A", "T", ".", ".", ".", "GT", "0/1", "1/1"],
   ["chr1", "2", ".", "A", "T", ".", ".", ".", "GT", "1/1", "1/1"]]

/-- Concrete instantiation of claim C9: disjoint sample sets, two data lines,
everything dropped on both sides. -/
theorem C9_empty_projection_drops_all_witness :
    (∀ s ∈ c9H1.samples, s ∉ c9H2.samples) ∧
    (combineHeaders c9H1 c9H2).1.samples = [] ∧
    writeVcfBody c9Lines (combineHeaders c9H1 c9H2).2.1 0 true =
      .ok ⟨[], countNC c9Lines, countNC c9Lines⟩ ∧
    writeVcfBody c9Lines (combineHeaders c9H1 c9H2).2.2 1 true =
      .ok ⟨[], countNC c9Lines, countNC c9Lines⟩ :=
  ⟨by decide,
    (C9_empty_projection_drops_all c9H1 c9H2 (by decide)).1,
    ((C9_empty_projection_drops_all c9H1 c9H2 (by decide)).2 c9Lines 0).1,
    ((C9_empty_projection_drops_all c9H1 c9H2 (by decide)).2 c9Lines 1).2⟩

/-! ### Claim C10: trailing angle bracket in extracted ids -/

theorem string_mk_data (t : String) : String.mk t.data = t := by
  cases t
  rfl

theorem takeWhile_all {p : Char → Bool} :
    ∀ (l : List Char), (∀ c ∈ l, p c = true) → l.takeWhile p = l := by
  intro l
  induction l with
  | nil => intro _; rfl
  | cons a t ih =>
    intro h
    rw [List.takeWhile_cons, if_pos (h a (List.mem_cons_self a t))]
    rw [ih fun c hc => h c (List.mem_cons_of_mem a hc)]

theorem takeWhile_append_stop {p : Char → Bool} {c : Char} (hc : p c = false) :
    ∀ (l rest : List Char), (∀ x ∈ l, p x = true) →
      (l ++ c :: rest).takeWhile p = l := by
  intro l
  induction l with
  | nil =>
    intro rest _
    simp only [List.nil_append, List.takeWhile_cons, hc]
    rfl
  | cons a t ih =>
    intro rest h
    simp only [List.cons_append, List.takeWhile_cons,
      h a (List.mem_cons_self a t), if_pos]
    rw [ih rest fun x hx => h x (List.mem_cons_of_mem a hx)]

theorem append_singleton_isEmpty (l : List Char) (c : Char) :
    (l ++ [c]).isEmpty = false := by
  cases l <;> rfl

theorem scanId_skip (pw : Bool) (c : Char) (rest : List Char)
    (h : "=<ID=".data.isPrefixOf (c :: rest) = false) :
    scanId pw (c :: rest) = scanId (isWordChar c) rest := by
  conv_lhs => unfold scanId
  rw [if_neg fun hcon => bfalse_btrue h hcon.2]

theorem scanId_hit (pw : Bool) (c : Char) (rest : List Char) (hpw : pw = true)
    (hpre : "=<ID=".data.isPrefixOf (c :: rest) = true)
    (hne : (((c :: rest).drop 5).takeWhile (fun ch => ch ≠ ',')).isEmpty = false) :
    scanId pw (c :: rest) = some ⟨((c :: rest).drop 5).takeWhile (fun ch => ch ≠ ',')⟩ := by
  conv_lhs => unfold scanId
  rw [if_pos ⟨hpw, hpre⟩]
  dsimp only
  rw [if_neg fun hcon => bfalse_btrue hne hcon]

/-- Claim C10: for a recognized metadata line whose `ID` value is the last
field inside the angle brackets (no comma after it), the extracted
identifier keeps the trailing `>` — the greedy `[^,]+` of `_patt` runs to
the end of the line — so `get_header` stores the id-with-fields and the
id-without-fields forms of the same `ID` under two different keys. -/
theorem C10_trailing_gt (s : String) (hne : s.data ≠ []) (hnc : (',') ∉ s.data) :
    extractId ("##FILTER=<ID=" ++ s ++ ">") = some (s ++ ">") ∧
    extractId ("##FILTER=<ID=" ++ s ++ ",Description=\"d\">") = some s ∧
    s ++ ">" ≠ s ∧
    getHeader ["##fileformat=VCFv4.1", "##FILTER=<ID=" ++ s ++ ">"] =
      .ok { emptyHeader with filters := [(s ++ ">", "##FILTER=<ID=" ++ s ++ ">")] } := by
  have hdata : ("##FILTER=<ID=" ++ s ++ ">").data =
      '#' :: '#' :: 'F' :: 'I' :: 'L' :: 'T' :: 'E' :: 'R' ::
        '=' :: '<' :: 'I' :: 'D' :: '=' :: (s.data ++ ['>']) := rfl
  have hdata2 : ("##FILTER=<ID=" ++ s ++ ",Description=\"d\">").data =
      '#' :: '#' :: 'F' :: 'I' :: 'L' :: 'T' :: 'E' :: 'R' ::
        '=' :: '<' :: 'I' :: 'D' :: '=' ::
          (s.data ++ ',' :: "Description=\"d\">".data) := rfl
  have hall : ∀ c ∈ s.data, (fun ch => decide (ch ≠ ',')) c = true := by
    intro c hc
    simp only [decide_eq_true_eq]
    intro hcon
    exact hnc (hcon ▸ hc)
  have htake : (s.data ++ ['>']).takeWhile (fun ch => ch ≠ ',') = s.data ++ ['>'] := by
    apply takeWhile_all
    intro c hc
    rcases List.mem_append.mp hc with hc | hc
    · exact hall c hc
    · simp at hc
      simp [hc]
  have htake2 : (s.data ++ ',' :: "Description=\"d\">".data).takeWhile
      (fun ch => ch ≠ ',') = s.data :=
    takeWhile_append_stop (by simp) s.data _ hall
  have ha : extractId ("##FILTER=<ID=" ++ s ++ ">") = some (s ++ ">") := by
    unfold extractId
    rw [hdata]
    rw [scanId_skip _ '#' _ rfl, scanId_skip _ '#' _ rfl, scanId_skip _ 'F' _ rfl,
      scanId_skip _ 'I' _ rfl, scanId_skip _ 'L' _ rfl, scanId_skip _ 'T' _ rfl,
      scanId_skip _ 'E' _ rfl, scanId_skip _ 'R' _ rfl]
    rw [scanId_hit (isWordChar 'R') '='
      ('<' :: 'I' :: 'D' :: '=' :: (s.data ++ ['>'])) (by decide)
      (by show List.isPrefixOf _ _ = true; simp [List.isPrefixOf]) ?hne]
    case hne =>
      show ((s.data ++ ['>']).takeWhile (fun ch => ch ≠ ',')).isEmpty = false
      rw [htake]
      exact append_singleton_isEmpty s.data '>'
    show some (String.mk ((s.data ++ ['>']).takeWhile (fun ch => ch ≠ ','))) = _
    rw [htake]
    rfl
  refine ⟨ha, ?_, ?_, ?_⟩
  · unfold extractId
    rw [hdata2]
    rw [scanId_skip _ '#' _ rfl, scanId_skip _ '#' _ rfl, scanId_skip _ 'F' _ rfl,
      scanId_skip _ 'I' _ rfl, scanId_skip _ 'L' _ rfl, scanId_skip _ 'T' _ rfl,
      scanId_skip _ 'E' _ rfl, scanId_skip _ 'R' _ rfl]
    rw [scanId_hit (isWordChar 'R') '='
      ('<' :: 'I' :: 'D' :: '=' :: (s.data ++ ',' :: "Description=\"d\">".data))
      (by decide)
      (by show List.isPrefixOf _ _ = true; simp [List.isPrefixOf]) ?hne2]
    case hne2 =>
      show ((s.data ++ ',' :: "Description=\"d\">".data).takeWhile
        (fun ch => ch ≠ ',')).isEmpty = false
      rw [htake2]
      cases hd : s.data with
      | nil => exact absurd hd hne
      | cons a t => rfl
    show some (String.mk ((s.data ++ ',' :: "Description=\"d\">".data).takeWhile
      (fun ch => ch ≠ ','))) = _
    rw [htake2, string_mk_data]
  · intro hcon
    have hd : (s ++ ">").data = s.data ++ ['>'] := rfl
    have hlen := congrArg (fun t : String => t.data.length) hcon
    simp only [hd, List.length_append] at hlen
    simp at hlen
  · show getHeaderGo ["##FILTER=<ID=" ++ s ++ ">"] emptyHeader = _
    have hhead : ("##FILTER=<ID=" ++ s ++ ">").data.head? = some '#' := by
      rw [hdata]
      rfl
    have hstrip : rstripCRLF ("##FILTER=<ID=" ++ s ++ ">") = "##FILTER=<ID=" ++ s ++ ">" := by
      unfold rstripCRLF
      rw [hdata]
      have hrev : ('#' :: '#' :: 'F' :: 'I' :: 'L' :: 'T' :: 'E' :: 'R' ::
          '=' :: '<' :: 'I' :: 'D' :: '=' :: (s.data ++ ['>'])).reverse =
          '>' :: (s.data.reverse ++
            ['=', 'D', 'I', '<', '=', 'R', 'E', 'T', 'L', 'I', 'F', '#', '#']) := by
        simp
      rw [hrev]
      rw [List.dropWhile_cons]
      rw [if_neg (by simp)]
      rw [show ('>' :: (s.data.reverse ++
          ['=', 'D', 'I', '<', '=', 'R', 'E', 'T', 'L', 'I', 'F', '#', '#'])).reverse =
        ("##FILTER=<ID=" ++ s ++ ">").data from by rw [hdata]; simp]
    have hinfo : "##INFO".data.isPrefixOf ("##FILTER=<ID=" ++ s ++ ">").data = false := by
      rw [hdata]
      rfl
    have hfmt : "##FORMAT".data.isPrefixOf ("##FILTER=<ID=" ++ s ++ ">").data = false := by
      rw [hdata]
      rfl
    have hfil : "##FILTER".data.isPrefixOf ("##FILTER=<ID=" ++ s ++ ">").data = true := by
      rw [hdata]
      rfl
    unfold getHeaderGo
    rw [if_neg (by simp [hhead]), hstrip]
    rw [if_neg (by simp [hinfo]), if_neg (by simp [hfmt]), if_pos (by simp [hfil])]
    rw [ha]
    rfl

/-- Concrete instantiation of claim C10 at `ID=PASS`: keys `PASS>` and
`PASS` differ. -/
theorem C10_trailing_gt_witness :
    ("PASS".data ≠ [] ∧ (',') ∉ "PASS".data) ∧
    (extractId "##FILTER=<ID=PASS>" = some "PASS>" ∧
      extractId "##FILTER=<ID=PASS,Description=\"d\">" = some "PASS" ∧
      ("PASS>" : String) ≠ "PASS" ∧
      getHeader ["##fileformat=VCFv4.1", "##FILTER=<ID=PASS>"] =
        .ok { emptyHeader with filters := [("PASS>", "##FILTER=<ID=PASS>")] }) :=
  ⟨⟨by decide, by decide⟩, by
    have h := C10_trailing_gt "PASS" (by decide) (by decide)
    simpa using h⟩

end Vcfmerge
